import Mathlib

/-!
Verification development for the task/schedule reminder backend.

The source is a JavaScript monolith; the subsystem under study is the
per-minute schedule-reminder cron job, its eligibility filtering, its
schedule-shape handling, the time-string parsing, the task-list
deduplication endpoint, and the legacy-grid processing of the
schedule/tasks endpoint.  JavaScript runtime values that flow through the
schedule data paths are modelled by the inductive `JVal`; strings are
modelled as lists of characters (`JStr`).  Errors thrown by the
JavaScript code (TypeError on member access of null/undefined, TypeError
on calling a missing method, ReferenceError on reading an undeclared
identifier) are modelled with `Except JsErr`.
-/

namespace Plqwr

/-- JavaScript strings, modelled as lists of characters. -/
abbrev JStr := List Char

/-- JavaScript runtime values occurring in the schedule data paths:
undefined, null, booleans, (integer) numbers, strings, arrays and plain
objects (association lists of string keys). -/
inductive JVal : Type where
  | undefV : JVal
  | jnull : JVal
  | bool (b : Bool) : JVal
  | num (n : Int) : JVal
  | str (s : JStr) : JVal
  | arr (elems : List JVal) : JVal
  | obj (fields : List (String × JVal)) : JVal
deriving Repr

/-- Embed a Lean string literal as a JavaScript string value. -/
def jstr (s : String) : JVal := .str s.data

/-- Errors thrown by the JavaScript fragments we model. -/
inductive JsErr : Type where
  | typeError : JsErr
  | referenceError : JsErr
deriving Repr, DecidableEq

/-- Result of a JavaScript computation that may throw. -/
abbrev JsRes (α : Type) := Except JsErr α

/-- JavaScript truthiness. -/
def truthy : JVal → Bool
  | .undefV => false
  | .jnull => false
  | .bool b => b
  | .num n => n != 0
  | .str s => !s.isEmpty
  | .arr _ => true
  | .obj _ => true

/-- Whether a value is null or undefined (member access on it throws). -/
def nullish : JVal → Bool
  | .undefV => true
  | .jnull => true
  | _ => false

/-- The test `typeof v === 'object'` (true for null, arrays and objects). -/
def typeofIsObject : JVal → Bool
  | .jnull => true
  | .arr _ => true
  | .obj _ => true
  | _ => false

/-- `Array.isArray`. -/
def isArrB : JVal → Bool
  | .arr _ => true
  | _ => false

/-- JavaScript `a || b`. -/
def jsOr (a b : JVal) : JVal := if truthy a then a else b

/-- Look a key up in an object's field list. -/
def objLookup (fs : List (String × JVal)) (k : String) : Option JVal :=
  (fs.find? (fun e => e.1 = k)).map (fun e => e.2)

/-- Property read `v.k` on a non-nullish value: object key lookup,
`length` on strings and arrays, `undefined` otherwise (primitives are
auto-boxed and have no such own property). -/
def fieldD : JVal → String → JVal
  | .obj fs, k => (objLookup fs k).getD .undefV
  | .str s, k => if k = "length" then .num s.length else .undefV
  | .arr xs, k => if k = "length" then .num xs.length else .undefV
  | _, _ => .undefV

/-- Indexed read `v[i]` on a non-nullish value. -/
def indexD : JVal → Nat → JVal
  | .arr xs, i => xs.getD i .undefV
  | .str s, i =>
    match s.get? i with
    | some c => .str [c]
    | none => .undefV
  | .obj fs, i => (objLookup fs (toString i)).getD .undefV
  | _, _ => .undefV

/-- Property read `v.k` throwing TypeError when `v` is null/undefined. -/
def jsFieldE (v : JVal) (k : String) : JsRes JVal :=
  if nullish v then .error .typeError else .ok (fieldD v k)

/-- Indexed read `v[i]` throwing TypeError when `v` is null/undefined. -/
def jsIndexE (v : JVal) (i : Nat) : JsRes JVal :=
  if nullish v then .error .typeError else .ok (indexD v i)

/-- Optional chaining `v?.k`. -/
def optField (v : JVal) (k : String) : JVal :=
  if nullish v then .undefV else fieldD v k

/-- Characters treated as whitespace by `trim` (the forms occurring in
the data). -/
def isSpaceC (c : Char) : Bool :=
  c = ' ' || c = '\t' || c = '\n' || c = '\r'

/-- Decimal digit test. -/
def isDigitC (c : Char) : Bool := '0' ≤ c && c ≤ '9'

/-- Value of an all-digit key (array index test of the `in` operator,
restricted to the digit-run form; the keys the source tests are
`day`, `Day` and `length`, none numeric). -/
def digitKeyVal (k : List Char) : Option Nat :=
  if !k.isEmpty && k.all isDigitC then
    some (k.foldl (fun acc c => 10 * acc + (c.toNat - '0'.toNat)) 0)
  else none

/-- The `'k' in v` operator: key membership on objects, index/length
membership on arrays, TypeError on primitives and null/undefined. -/
def hasKeyE (v : JVal) (k : String) : JsRes Bool :=
  match v with
  | .obj fs => .ok (fs.any (fun e => e.1 = k))
  | .arr xs =>
    .ok (k = "length" ||
      (match digitKeyVal k.data with
       | some i => decide (i < xs.length)
       | none => false))
  | _ => .error .typeError

/-- `String.prototype.trim`. -/
def trimChars (s : JStr) : JStr :=
  ((s.dropWhile isSpaceC).reverse.dropWhile isSpaceC).reverse

/-- ASCII lower-casing of a character list (`toLowerCase`). -/
def lowerChars (s : JStr) : JStr := s.map Char.toLower

/-- ASCII upper-casing of a character list (`toUpperCase`). -/
def upperChars (s : JStr) : JStr := s.map Char.toUpper

/-- Value of a digit run, most significant first. -/
def digitsVal (ds : JStr) : Nat :=
  ds.foldl (fun acc c => 10 * acc + (c.toNat - '0'.toNat)) 0

/-- JavaScript `parseInt(s, 10)`: skip leading whitespace, optional
sign, then the maximal leading digit run; NaN (here `none`) when no
digit is found. -/
def jsParseInt (s : JStr) : Option Int :=
  let t := s.dropWhile isSpaceC
  let core : JStr → Option Nat := fun cs =>
    let ds := cs.takeWhile isDigitC
    if ds.isEmpty then none else some (digitsVal ds)
  match t with
  | '-' :: rest => (core rest).map (fun n => -(n : Int))
  | '+' :: rest => (core rest).map (fun n => (n : Int))
  | _ => (core t).map (fun n => (n : Int))

/-- `String.prototype.split(':')`. -/
def splitOnColon : JStr → List JStr
  | [] => [[]]
  | c :: rest =>
    if c = ':' then [] :: splitOnColon rest
    else
      match splitOnColon rest with
      | [] => [[c]]
      | p :: ps => (c :: p) :: ps

/-- The decimal digit character for a value below ten. -/
def digitChar : Nat → Char
  | 0 => '0'
  | 1 => '1'
  | 2 => '2'
  | 3 => '3'
  | 4 => '4'
  | 5 => '5'
  | 6 => '6'
  | 7 => '7'
  | 8 => '8'
  | _ => '9'

/-- Decimal rendering of a natural number below one hundred, as
JavaScript `String(n)`.  Every rendering site models a value captured
by a one-or-two-digit regex group (or a 12-hour value), so the
two-digit domain is exact for all uses. -/
def natChars (n : Nat) : JStr :=
  if n < 10 then [digitChar n] else [digitChar (n / 10), digitChar (n % 10)]

/-- Two-digit zero-padding, as `String(n).padStart(2, '0')` for n < 100. -/
def pad2 (n : Nat) : JStr :=
  let s := natChars n
  if s.length = 1 then '0' :: s else s

/-- Interleave a comma between rendered array elements. -/
def joinCommaChars : List JStr → JStr
  | [] => []
  | [s] => s
  | s :: rest => s ++ ',' :: joinCommaChars rest

mutual

/-- JavaScript `String(v)` / `.toString()` for non-nullish values
(arrays join their elements with commas, nullish elements joining as
empty). -/
def jsToStringChars : JVal → JStr
  | .undefV => "undefined".data
  | .jnull => "null".data
  | .bool b => if b then "true".data else "false".data
  | .num n => (toString n).data
  | .str s => s
  | .arr xs => joinCommaChars (jsToStringList xs)
  | .obj _ => "[object Object]".data

/-- Stringify array elements for `join`, nullish elements becoming
empty strings. -/
def jsToStringList : List JVal → List JStr
  | [] => []
  | v :: vs =>
    (match v with
     | .undefV => []
     | .jnull => []
     | w => jsToStringChars w) :: jsToStringList vs

end

/-- Method-style `v.toString()`: TypeError on null/undefined. -/
def jsToStringE (v : JVal) : JsRes JStr :=
  if nullish v then .error .typeError else .ok (jsToStringChars v)

/-- Method-style `v.trim()`: only strings have it, otherwise TypeError. -/
def jsTrimE : JVal → JsRes JStr
  | .str s => .ok (trimChars s)
  | _ => .error .typeError

/-- The pattern `(v || '').charAt(0).toUpperCase() + (v || '').slice(1).toLowerCase()`:
TypeError when `v` is truthy but not a string. -/
def capFirstE (v : JVal) : JsRes JStr :=
  match jsOr v (.str []) with
  | .str s =>
    .ok (match s with
         | [] => []
         | c :: cs => Char.toUpper c :: lowerChars cs)
  | _ => .error .typeError

/-- Calling a String-only method (padEnd, toLowerCase, ...) on `v`:
yields the string or throws TypeError. -/
def asStringE : JVal → JsRes JStr
  | .str s => .ok s
  | _ => .error .typeError

/-- Character class `[0-9:]`. -/
def isDigitColonC (c : Char) : Bool := isDigitC c || c = ':'

/-- Character class `[AP]` case-insensitive. -/
def isApC (c : Char) : Bool := c = 'A' || c = 'a' || c = 'P' || c = 'p'

/-- Character `M` case-insensitive. -/
def isMC (c : Char) : Bool := c = 'M' || c = 'm'

/-- Dropping a prefix cannot lengthen a list (termination helper). -/
theorem dropWhile_length_le (p : Char → Bool) (l : JStr) :
    (l.dropWhile p).length ≤ l.length :=
  (List.dropWhile_suffix p).length_le

/-- First match of the regex `([0-9:]+)\s*([AP]M?)` (case-insensitive),
returning the two capture groups.  A match starting inside a maximal
`[0-9:]` run extends to the run's end (shorter greedy choices are
followed by another `[0-9:]` character, failing both `\s*` and `[AP]`),
so the leftmost match is found by scanning positions left to right and
returning at the first position whose maximal run is followed by
whitespace and then `A`/`P` (positions inside a failing run see the same
run tail and fail identically, so skipping one character at a time is
equivalent to skipping whole runs). -/
def findPeriodMatch : JStr → Option (JStr × JStr)
  | [] => none
  | c :: cs =>
    if isDigitColonC c then
      let run := c :: cs.takeWhile isDigitColonC
      let rest := cs.dropWhile isDigitColonC
      match rest.dropWhile isSpaceC with
      | a :: tail =>
        if isApC a then
          some (run, a ::
            (match tail with
             | m :: _ => if isMC m then [m] else []
             | [] => []))
        else findPeriodMatch cs
      | [] => findPeriodMatch cs
    else findPeriodMatch cs

/-- The slot parser's final range validation: NaN has already been
excluded, so reject a converted hour outside 0..23 or a minute outside
0..59, otherwise accept the pair. -/
def validateTime (h2 m0 : Int) : Option (Nat × Nat) :=
  if h2 < 0 || h2 > 23 || m0 < 0 || m0 > 59 then none
  else some (h2.toNat, m0.toNat)

/-- Time-slot parsing of the per-minute cron (the try-block at the head
of the time-slot loop): trim, extract an optional `[AP]M?` period via
`findPeriodMatch`, normalize `P`/`A` to `PM`/`AM`, split the numeric
part on `:`, `parseInt` hours and minutes (minutes default `0`), apply
the 12-hour to 24-hour conversion when a period is present, and reject
NaN or out-of-range values.  Returns the accepted (hour, minute). -/
def parseClockChars (timeString : JStr) : Option (Nat × Nat) :=
  let tp0 := trimChars timeString
  let p :=
    match findPeriodMatch tp0 with
    | some g =>
      let per0 := upperChars g.2
      let per1 := if per0 = ['P'] then ['P', 'M']
        else if per0 = ['A'] then ['A', 'M'] else per0
      (trimChars g.1, per1)
    | none => (tp0, ([] : JStr))
  let parts := splitOnColon p.1
  let hoursStr := parts.headD []
  let minutesStr := parts.getD 1 []
  match jsParseInt hoursStr,
    jsParseInt (if minutesStr.isEmpty then ['0'] else minutesStr) with
  | some h0, some m0 =>
    let h1 : Int := if p.2 = ['P', 'M'] && h0 < 12 then h0 + 12 else h0
    let h2 : Int := if p.2 = ['A', 'M'] && h1 = 12 then 0 else h1
    validateTime h2 m0
  | _, _ => none

/-- One time-slot header value: `!timeString` skips the slot before the
try-block; inside it, `.trim()` on a non-string throws a TypeError that
the per-slot catch swallows, so only string headers can produce a slot. -/
def parseSlotVal : JVal → Option (Nat × Nat)
  | .str s => parseClockChars s
  | _ => none

/-- Tail `\s*(am|pm)?$` of the extractTime regex. -/
def extractTimeTail (h m : JStr) (rest : JStr) : Option (JStr × JStr × Option JStr) :=
  match rest.dropWhile isSpaceC with
  | [] => some (h, m, none)
  | [a, b] =>
    if (Char.toLower a = 'a' || Char.toLower a = 'p') && Char.toLower b = 'm' then
      some (h, m, some [a, b])
    else none
  | _ => none

/-- Optional seconds group `(?::\d{2})?` of the extractTime regex, with
backtracking: if consuming `:dd` leaves an unmatchable tail, retry
without consuming it. -/
def extractTimeSeconds (h m : JStr) (rest : JStr) : Option (JStr × JStr × Option JStr) :=
  let withSec :=
    match rest with
    | ':' :: s1 :: s2 :: r =>
      if isDigitC s1 && isDigitC s2 then extractTimeTail h m r else none
    | _ => none
  match withSec with
  | some res => some res
  | none => extractTimeTail h m rest

/-- Minutes part `(\d{2})` of the extractTime regex. -/
def extractTimeMinutes (h : JStr) (rest : JStr) : Option (JStr × JStr × Option JStr) :=
  match rest with
  | m1 :: m2 :: r =>
    if isDigitC m1 && isDigitC m2 then extractTimeSeconds h [m1, m2] r else none
  | _ => none

/-- Anchored match of `^(\d{1,2}):(\d{2})(?::\d{2})?\s*(am|pm)?$`
(case-insensitive), returning (hour digits, minute digits, period).
The greedy `\d{1,2}` takes two digits when the third character is the
colon; with a digit there instead, the one-digit backtrack also fails
on the required colon. -/
def timeMatchRegex (s : JStr) : Option (JStr × JStr × Option JStr) :=
  match s with
  | c1 :: rest1 =>
    if !isDigitC c1 then none
    else
      match rest1 with
      | c2 :: rest2 =>
        if isDigitC c2 then
          match rest2 with
          | ':' :: rest3 => extractTimeMinutes [c1, c2] rest3
          | _ => none
        else if c2 = ':' then extractTimeMinutes [c1] rest2
        else none
      | [] => none
  | [] => none

/-- The route helper `extractTime` (tasks/list endpoint): a falsy input
yields the empty string; a string matching the anchored `H:MM` regex is
re-rendered in 12-hour form, converting a suffix-free hour with
`hours % 12 || 12` and choosing AM/PM by `hours >= 12`, while a present
am/pm suffix is upper-cased and the hour re-rendered unconverted; a
non-matching string is returned unchanged. -/
def extractTimeChars (timeStr : JStr) : JStr :=
  if timeStr.isEmpty then []
  else
    match timeMatchRegex timeStr with
    | some g =>
      let hours := digitsVal g.1
      let minutes := g.2.1
      match g.2.2 with
      | none =>
        let per := if hours ≥ 12 then ['P', 'M'] else ['A', 'M']
        let h12 := if hours % 12 = 0 then 12 else hours % 12
        trimChars (natChars h12 ++ ':' :: minutes ++ ' ' :: per)
      | some p => trimChars (natChars hours ++ ':' :: minutes ++ ' ' :: upperChars p)
    | none => timeStr

/-- Weekday, as used by the cron job via `Date.prototype.getDay`. -/
inductive Day : Type where
  | sunday | monday | tuesday | wednesday | thursday | friday | saturday
deriving DecidableEq, Repr

/-- JavaScript `getDay` index (Sunday 0 .. Saturday 6). -/
def Day.getDay : Day → Nat
  | .sunday => 0
  | .monday => 1
  | .tuesday => 2
  | .wednesday => 3
  | .thursday => 4
  | .friday => 5
  | .saturday => 6

/-- The `daysOfWeek` array entry for a day. -/
def Day.jsName : Day → String
  | .sunday => "Sunday"
  | .monday => "Monday"
  | .tuesday => "Tuesday"
  | .wednesday => "Wednesday"
  | .thursday => "Thursday"
  | .friday => "Friday"
  | .saturday => "Saturday"

/-- The cron job's `dayToRowMap` array (indexed by `getDay`); its entries
are the identity despite its Monday-first comments. -/
def dayToRowMap : List Nat := [0, 1, 2, 3, 4, 5, 6]

/-- The cron job's `dayToRowIndex` object (monday 0 .. sunday 6),
applied to the lower-cased target day name (total on weekday names). -/
def dayToRowIndex : Day → Nat
  | .monday => 0
  | .tuesday => 1
  | .wednesday => 2
  | .thursday => 3
  | .friday => 4
  | .saturday => 5
  | .sunday => 6

/-- The User fields read by the reminder pipeline.  `whatsapp` is
`notificationSettings?.whatsapp` (`none` when the setting or the whole
settings object is absent); `schedule` and `weeklySchedule` are the raw
stored blobs (`JVal.undefV` when the field is absent). -/
structure UserR : Type where
  phone : String
  uname : Option String
  isVerified : Bool
  whatsapp : Option Bool
  schedule : JVal
  weeklySchedule : JVal

/-- One `sendWhatsAppReminder(phone, taskText, ...)` call.  The third
argument is a locale-formatted clock string derived from the wall clock,
irrelevant to which calls are made, and omitted here. -/
structure Dispatch : Type where
  phone : String
  text : JStr
deriving Repr, DecidableEq

/-- The Task document fields relevant to reminders (Task model schema). -/
structure TaskR : Type where
  text : JStr
  dueDate : Nat
  userId : String
  completed : Bool
  reminderSent : Bool
  oneMinuteReminderSent : Bool
deriving Repr, DecidableEq

/-- The comparison `v > 0` after a possibly-undefined `length` read
(false for undefined, NaN-style). -/
def posLen : JVal → Bool
  | .num n => n > 0
  | _ => false

/-- Per-row accesses of the initial all-users logging loop: the template
literal reads `row.day`, `row.time`, `row.task`, throwing on a nullish
row. -/
def scanRow2 : JVal → JsRes Unit := fun row => do
  _ ← jsFieldE row "day"
  _ ← jsFieldE row "time"
  _ ← jsFieldE row "task"
  pure ()

/-- Run `scanRow2` over a list of rows in order. -/
def scanRows2 : List JVal → JsRes Unit
  | [] => .ok ()
  | r :: rs => do
    scanRow2 r
    scanRows2 rs

/-- The initial logging pass over one user (runs for every user, before
any filtering): when the schedule is truthy and `rows?.length > 0`, the
code calls `rows.slice(0, 2).forEach(...)`; on an array this reads
day/time/task of the first two rows (throwing on nullish rows), while on
a string `slice` yields a string whose missing `forEach` throws, and on
an object with a positive numeric `length` the missing `slice` throws. -/
def scanUser (u : UserR) : JsRes Unit :=
  if truthy u.schedule then
    let rows := fieldD u.schedule "rows"
    if posLen (optField rows "length") then
      match rows with
      | .arr xs => scanRows2 (xs.take 2)
      | _ => .error .typeError
    else .ok ()
  else .ok ()

/-- Run `scanUser` over all users in order. -/
def scanUsers : List UserR → JsRes Unit
  | [] => .ok ()
  | u :: us => do
    scanUser u
    scanUsers us

/-- The verified-users filter: a non-empty (post-trim) phone and
`isVerified === true`. -/
def verifiedKeep (u : UserR) : Bool :=
  (u.phone ≠ "" && trimChars u.phone.data ≠ []) && u.isVerified

/-- Whether the phone passes the verified filter's phone test. -/
def hasPhoneB (u : UserR) : Bool :=
  u.phone ≠ "" && trimChars u.phone.data ≠ []

/-- The check `user.notificationSettings?.whatsapp !== false`
(absence counts as enabled). -/
def whatsappEnabled (u : UserR) : Bool := u.whatsapp ≠ some false

/-- The shared new-format test
`rows && rows.length > 0 && typeof rows[0] === 'object' && 'day' in rows[0]`;
the `in` operator throws when `rows[0]` is null. -/
def isNewFormatE (rows : JVal) : JsRes Bool :=
  if truthy rows && posLen (optField rows "length") then
    if typeofIsObject (indexD rows 0) then hasKeyE (indexD rows 0) "day"
    else .ok false
  else .ok false

/-- Whether a (non-nullish) row has truthy day, time and task fields. -/
def validRowB (r : JVal) : Bool :=
  truthy (fieldD r "day") && truthy (fieldD r "time") && truthy (fieldD r "task")

/-- The filter `rows.filter(row => row.day && row.time && row.task)`,
reading `row.day` first and hence throwing on a nullish row. -/
def filterValidRows : List JVal → JsRes (List JVal)
  | [] => .ok []
  | r :: rs =>
    if nullish r then .error .typeError
    else do
      let rest ← filterValidRows rs
      pure (if validRowB r then r :: rest else rest)

/-- The eligibility loop's schedule-validity computation: false for a
falsy schedule; in new format, true iff some row has day, time and task
all truthy (filtering throws a TypeError when `rows.filter` is missing,
i.e. rows is not an array); in legacy shape, true iff rows is a
non-empty array. -/
def hasValidScheduleE (u : UserR) : JsRes Bool :=
  if !truthy u.schedule then .ok false
  else do
    let rows := fieldD u.schedule "rows"
    let inf ← isNewFormatE rows
    if inf then
      match rows with
      | .arr xs => do
        let valid ← filterValidRows xs
        pure (decide (0 < valid.length))
      | _ => .error .typeError
    else
      pure (truthy rows && isArrB rows && posLen (fieldD rows "length"))

/-- One user's eligibility: WhatsApp not explicitly disabled and a valid
schedule (the validity computation runs regardless of the WhatsApp
flag, as in the source). -/
def eligibleCheckE (u : UserR) : JsRes Bool := do
  let hv ← hasValidScheduleE u
  pure (whatsappEnabled u && hv)

/-- Build the `users` list from the verified users, in order; an
eligibility throw aborts the whole cycle (this loop has no per-user
catch). -/
def eligibleFilterE : List UserR → JsRes (List UserR)
  | [] => .ok []
  | u :: us => do
    let b ← eligibleCheckE u
    let rest ← eligibleFilterE us
    pure (if b then u :: rest else rest)

/-- New-format row handling of the current-day logging pass: read
`row.day` (throws on nullish rows), capitalize it (throws when truthy
but not a string), and collect the (time, task) pair when the day
matches and both fields are truthy. -/
def phase4NewRows (cdName : JStr) : List JVal → JsRes (List (JVal × JVal))
  | [] => .ok []
  | row :: rest => do
    let d ← jsFieldE row "day"
    let rowDay ← capFirstE d
    let t := fieldD row "time"
    let k := fieldD row "task"
    let tail ← phase4NewRows cdName rest
    pure (if rowDay = cdName && truthy t && truthy k then (t, k) :: tail else tail)

/-- The legacy logging pass first iterates all rows reading `row[0]`
(throwing on nullish rows). -/
def scanIndex0 : List JVal → JsRes Unit
  | [] => .ok ()
  | r :: rs => do
    _ ← jsIndexE r 0
    scanIndex0 rs

/-- The day-row predicate
`(row[0] || '').toString().trim()` non-empty and case-insensitively
equal to the current day name (total here; nullish rows have already
thrown in the preceding scan). -/
def rowDayMatches (cdName : JStr) (row : JVal) : Bool :=
  let rowDay := trimChars (jsToStringChars (jsOr (indexD row 0) (.str [])))
  !rowDay.isEmpty && lowerChars rowDay = lowerChars cdName

/-- Collect the legacy current-day (time, task) pairs: for each header
index above zero with a truthy day-row cell. -/
def legacyCdTasks (hs : List JVal) (dayRow : JVal) : List (JVal × JVal) :=
  (List.range hs.length).filterMap (fun i =>
    if 0 < i && truthy (indexD dayRow i) then
      some (hs.getD i .undefV, indexD dayRow i)
    else none)

/-- The legacy schedule display: `(headers[i+1] || '').padEnd(10)` for
each printed column throws when that header is truthy but not a
string. -/
def displayLegacyRow (hs : List JVal) : Nat → JsRes Unit
  | 0 => .ok ()
  | n + 1 => do
    _ ← asStringE (jsOr (hs.getD (hs.length - (n + 1)) .undefV) (.str []))
    displayLegacyRow hs n

/-- The new-format display: `task.time.padEnd(10)` throws when a
collected time value is not a string (the sort comparator's
`toLowerCase` can throw on the same values first; either way the pass
throws a TypeError exactly when some collected time is a
non-string). -/
def displayNewTasks : List (JVal × JVal) → JsRes Unit
  | [] => .ok ()
  | (t, _) :: rest => do
    _ ← asStringE t
    displayNewTasks rest

/-- The per-user current-day logging pass (runs over the eligible users
before the dispatch loop, without a per-user catch).  Mirrors the
source's structure: `schedule = user.schedule || ` empty object, the
rows array guard, the new-format test, collection of the current day's
(time, task) pairs, and the display block guarded on the collected list
being non-empty. -/
def phase4User (cdName : JStr) (u : UserR) : JsRes Unit := do
  let schedule := jsOr u.schedule (.obj [])
  let rows := fieldD schedule "rows"
  match rows with
  | .arr xs => do
    let inf ← isNewFormatE rows
    let hs := fieldD schedule "headers"
    let cdTasks ←
      if inf then phase4NewRows cdName xs
      else
        if truthy hs && isArrB hs && decide (0 < xs.length) then do
          scanIndex0 xs
          match hs, xs.find? (rowDayMatches cdName) with
          | .arr hl, some dayRow => pure (legacyCdTasks hl dayRow)
          | _, _ => pure []
        else pure []
    if cdTasks.isEmpty then pure ()
    else
      if truthy hs && isArrB hs then
        match hs, xs.find? (rowDayMatches cdName) with
        | .arr hl, some _ => displayLegacyRow hl (hl.length - 1)
        | _, _ => pure ()
      else displayNewTasks cdTasks
  | _ => pure ()

/-- Run the current-day logging pass over the eligible users. -/
def phase4Scan (cdName : JStr) : List UserR → JsRes Unit
  | [] => .ok ()
  | u :: us => do
    phase4User cdName u
    phase4Scan cdName us

/-- The weekly-schedule logging pass reads `row.day` of every row
unguarded in its grouping loop, throwing on nullish rows (its second
row loop guards with `if (!row)` and adds no further throwing reads). -/
def phase5ScanRows : List JVal → JsRes Unit
  | [] => .ok ()
  | r :: rs => do
    _ ← jsFieldE r "day"
    phase5ScanRows rs

/-- The weekly-schedule logging pass for one user. -/
def phase5User (u : UserR) : JsRes Unit :=
  if truthy u.schedule then
    match fieldD u.schedule "rows" with
    | .arr xs => phase5ScanRows xs
    | _ => .ok ()
  else .ok ()

/-- Run the weekly-schedule logging pass over the eligible users. -/
def phase5Scan : List UserR → JsRes Unit
  | [] => .ok ()
  | u :: us => do
    phase5User u
    phase5Scan us

/-- Replace or add a key in an object's field list. -/
def setKey (fs : List (String × JVal)) (k : String) (v : JVal) :
    List (String × JVal) :=
  if fs.any (fun e => e.1 = k) then
    fs.map (fun e => if e.1 = k then (k, v) else e)
  else fs ++ [(k, v)]

/-- The dispatch loop's shape coercion: an array schedule is wrapped as
rows with empty headers; an object with a truthy non-array rows gets
rows wrapped in a singleton array; an object with falsy rows gets
`rows = ` a singleton holding the schedule object itself (the source
creates a self-reference there; the pre-assignment object is used here,
observationally equal for every later read, none of which reads `rows`
out of a rows element); primitive schedules are unchanged, the sloppy-
mode property assignment on them being a silent no-op. -/
def coerceSchedule (s : JVal) : JVal :=
  if isArrB s then .obj [("rows", s), ("headers", .arr [])]
  else
    match s with
    | .obj fs =>
      let rows := (objLookup fs "rows").getD .undefV
      if truthy rows && !isArrB rows then .obj (setKey fs "rows" (.arr [rows]))
      else if !truthy rows then .obj (setKey fs "rows" (.arr [.obj fs]))
      else s
    | _ => s

/-- The dispatch loop's new-format test on the current day's row:
`typeof row === 'object' && ('day' in row || 'Day' in row || (row.Time && row.Task))`;
`in` throws on a null row. -/
def isNewFormatRowE (cdr : JVal) : JsRes Bool :=
  if typeofIsObject cdr then do
    let hd ← hasKeyE cdr "day"
    if hd then pure true
    else do
      let hD ← hasKeyE cdr "Day"
      if hD then pure true
      else pure (truthy (fieldD cdr "Time") && truthy (fieldD cdr "Task"))
  else pure false

/-- The legacy branch's all-rows logging fold starts with
`Object.keys(row)`, throwing on nullish rows; its remaining reads are
total on non-nullish rows and feed logging only. -/
def legacyScanRows : List JVal → JsRes Unit
  | [] => .ok ()
  | r :: rs => if nullish r then .error .typeError else legacyScanRows rs

/-- One parsed time slot of the dispatch loop. -/
structure Slot : Type where
  col : Nat
  hours : Nat
  minutes : Nat
  timeString : JStr
  hasTask : Bool
  taskText : JStr
deriving Repr, DecidableEq

/-- The cell text read `(daySchedule[col] || '').toString().trim()`. -/
def slotTaskText (daySchedule : List JVal) (col : Nat) : JStr :=
  trimChars (jsToStringChars (jsOr (daySchedule.getD col .undefV) (.str [])))

/-- The `schedule.headers.length` loop bound: TypeError on nullish
headers; numeric length for arrays and strings; zero iterations when
`length` is undefined (`col < undefined` is false). -/
def headersLenE (headers : JVal) : JsRes Nat :=
  if nullish headers then .error .typeError
  else
    match fieldD headers "length" with
    | .num n => .ok n.toNat
    | _ => .ok 0

/-- Build the time-slot list: skip falsy header cells, parse the rest
(per-slot try/catch turning any throw into a skip), and record the
trimmed cell text flags. -/
def buildSlots (headers : JVal) (daySchedule : List JVal) (len : Nat) :
    List Slot :=
  (List.range len).filterMap (fun col =>
    let timeString := indexD headers col
    if !truthy timeString then none
    else
      match parseSlotVal timeString with
      | some hm =>
        let tt := slotTaskText daySchedule col
        some ⟨col, hm.1, hm.2,
          (match timeString with
           | .str s => trimChars s
           | _ => []),
          !tt.isEmpty,
          if tt.isEmpty then "NO TASK".data else tt⟩
      | none => none)

/-- The stable sort order of the slot comparator (hours, then minutes). -/
def slotLE (a b : Slot) : Bool :=
  a.hours < b.hours || (a.hours = b.hours && a.minutes ≤ b.minutes)

/-- Stable insertion preserving the relative order of equal slots. -/
def insertSlot (x : Slot) : List Slot → List Slot
  | [] => [x]
  | y :: ys => if slotLE y x then y :: insertSlot x ys else x :: y :: ys

/-- The `timeSlots.sort` call (stable, as Array.prototype.sort is). -/
def sortSlots (l : List Slot) : List Slot :=
  l.foldl (fun acc x => insertSlot x acc) []

/-- The dispatch loop over the sorted slots: slots equal to the target
time with a non-empty trimmed cell text cause one
`sendWhatsAppReminder` call each; everything else is skipped. -/
def dispatchSlots (phone : String) (daySchedule : List JVal) (tH tM : Nat) :
    List Slot → List Dispatch
  | [] => []
  | s :: rest =>
    if s.hours = tH && s.minutes = tM then
      let taskText := slotTaskText daySchedule s.col
      if taskText.isEmpty then dispatchSlots phone daySchedule tH tM rest
      else ⟨phone, taskText⟩ :: dispatchSlots phone daySchedule tH tM rest
    else dispatchSlots phone daySchedule tH tM rest

/-- The per-user body of the dispatch loop: schedule lookup
(`weeklySchedule || schedule`), shape coercion, rows guard, current-day
row selection `rows[targetRowIndex] || rows[0]`, new-format test (whose
branch always dereferences the undeclared identifier `row` and throws a
ReferenceError), the legacy logging fold, day-row selection by
`dayToRowIndex`, time-slot parsing, sorting, and slot dispatch. -/
def processUser (targetDay : Day) (tH tM : Nat) (u : UserR) :
    JsRes (List Dispatch) := do
  let schedRaw := jsOr u.weeklySchedule u.schedule
  if !truthy schedRaw then pure []
  else
    let sched := coerceSchedule schedRaw
    match fieldD sched "rows" with
    | .arr xs =>
      if xs.isEmpty then pure []
      else do
        let targetRowIndex := dayToRowMap.getD targetDay.getDay 0
        let cdr := jsOr (xs.getD targetRowIndex .undefV) (xs.getD 0 .undefV)
        let inf ← isNewFormatRowE cdr
        if inf then .error .referenceError
        else do
          legacyScanRows xs
          let rowIndex := dayToRowIndex targetDay
          if decide (xs.length ≤ rowIndex) then pure []
          else
            match xs.getD rowIndex .undefV with
            | .arr daySchedule => do
              let hs := fieldD sched "headers"
              let hlen ← headersLenE hs
              let slots := sortSlots (buildSlots hs daySchedule hlen)
              pure (dispatchSlots u.phone daySchedule tH tM slots)
            | _ => pure []
    | _ => pure []

/-- The per-user try/catch of the dispatch loop: a throw yields no
dispatch for that user (every modelled throw occurs before the first
send of that user) and processing continues. -/
def handleUser (td : Day) (tH tM : Nat) (u : UserR) : List Dispatch :=
  match processUser td tH tM u with
  | .ok ds => ds
  | .error _ => []

/-- The dispatch loop over the eligible users. -/
def dispatchPhase (td : Day) (tH tM : Nat) : List UserR → List Dispatch
  | [] => []
  | u :: us => handleUser td tH tM u ++ dispatchPhase td tH tM us

/-- One run of the per-minute cron body, with a cycle-level error when
one of the unprotected passes throws: the all-users logging scan, the
verified filter, the eligibility loop, the current-day and
weekly-schedule logging passes, then the per-user-guarded dispatch
loop.  `cd` is the day of `now`, `td`/`tH`/`tM` the day, hour and
minute of `now + 60s`. -/
def runCycleE (cd td : Day) (tH tM : Nat) (allUsers : List UserR) :
    JsRes (List Dispatch) := do
  scanUsers allUsers
  let verified := allUsers.filter verifiedKeep
  let users ← eligibleFilterE verified
  phase4Scan cd.jsName.data users
  phase5Scan users
  pure (dispatchPhase td tH tM users)

/-- The outer try/catch of the cron body: a cycle-level throw is logged
and the tick ends; all modelled cycle-level throws precede the first
send, so a failed cycle dispatches nothing. -/
def runCycle (cd td : Day) (tH tM : Nat) (allUsers : List UserR) :
    List Dispatch :=
  match runCycleE cd td tH tM allUsers with
  | .ok ds => ds
  | .error _ => []

/-- One minute tick of the reminder system as a transformer of the task
store: the schedule cron reads only User documents and the separately
registered 1-minute reminders cron has an empty body, so the Task list
passes through unchanged and contributes no dispatch. -/
def minuteTick (cd td : Day) (tH tM : Nat) (users : List UserR)
    (tasks : List TaskR) : List Dispatch × List TaskR :=
  (runCycle cd td tH tM users, tasks)

/-- The body of the cron registered with the comment
`1-minute reminders logic`: it is empty, performing no store access and
no dispatch. -/
def oneMinuteRemindersCron (tasks : List TaskR) : List Dispatch × List TaskR :=
  ([], tasks)

/-- The `tasksByDay` keys of the schedule/tasks endpoint. -/
def weekdayNames : List String :=
  ["Monday", "Tuesday", "Wednesday", "Thursday", "Friday", "Saturday", "Sunday"]

/-- One (day, time, task) triple pushed by the schedule/tasks endpoint. -/
structure ApiTask : Type where
  day : JStr
  time : JVal
  task : JVal
deriving Repr

/-- The cell loop of the legacy branch of the schedule/tasks endpoint:
for each column above zero, the cell is the task text and
`timeSlots[col - 1]` the time; a truthy cell has `.trim()` called on it
(TypeError when not a string, caught by the route's 500 handler), and
the pair is kept when the trimmed text is non-empty and the time slot
truthy. -/
def apiLegacyCells (timeSlots : JVal) (dayKey : JStr) (cells : List JVal) :
    Nat → JsRes (List ApiTask)
  | 0 => .ok []
  | n + 1 => do
    let col := cells.length - (n + 1)
    let taskText := cells.getD col .undefV
    let timeSlot := indexD timeSlots (col - 1)
    let keep ←
      if truthy taskText then do
        let t ← jsTrimE taskText
        pure (!t.isEmpty && truthy timeSlot)
      else pure false
    let rest ← apiLegacyCells timeSlots dayKey cells n
    pure (if keep then ⟨dayKey, timeSlot, taskText⟩ :: rest else rest)

/-- One legacy row of the schedule/tasks endpoint: skip non-array rows
and rows of length at most one; cell zero is the day name, which must
be truthy and (stringified) one of the seven `tasksByDay` keys; the
remaining cells are paired with `headers[col - 1]`. -/
def apiLegacyRow (timeSlots : JVal) (row : JVal) : JsRes (List ApiTask) :=
  match row with
  | .arr cells =>
    if cells.length ≤ 1 then .ok []
    else
      let day := cells.getD 0 .undefV
      if !truthy day then .ok []
      else
        let dayKey := jsToStringChars day
        if !(weekdayNames.map String.data).contains dayKey then .ok []
        else apiLegacyCells timeSlots dayKey cells (cells.length - 1)
  | _ => .ok []

/-- The legacy-format row loop of the schedule/tasks endpoint
(`timeSlots = scheduleData.headers || ` empty array), collecting the
pushed (day, time, task) triples in row order. -/
def apiScheduleTasksLegacy (scheduleData : JVal) (rows : List JVal) :
    JsRes (List ApiTask) :=
  let timeSlots := jsOr (fieldD scheduleData "headers") (.arr [])
  let go : List JVal → JsRes (List ApiTask) :=
    fun l => l.foldlM (fun acc row => do
      let ts ← apiLegacyRow timeSlots row
      pure (acc ++ ts)) []
  go rows

/-- One entry of the tasks/list endpoint's `allTasks` array (fields the
dedup step reads). -/
structure ListedTask : Type where
  day : String
  time : String
  task : String
deriving Repr, DecidableEq

/-- The dedup key: the lower-cased day, dash, time string. -/
def taskKey (t : ListedTask) : JStr :=
  lowerChars (t.day.data ++ '-' :: t.time.data)

/-- The `uniqueTasks` loop of the tasks/list endpoint: walk the list in
order, keeping an entry only when its key has not been seen yet. -/
def uniqueTasksGo (seen : List JStr) : List ListedTask → List ListedTask
  | [] => []
  | t :: ts =>
    if taskKey t ∈ seen then uniqueTasksGo seen ts
    else t :: uniqueTasksGo (taskKey t :: seen) ts

/-- The tasks/list deduplication, starting from an empty seen-set. -/
def uniqueTasks (l : List ListedTask) : List ListedTask :=
  uniqueTasksGo [] l

/-- Rendering of an (hour, minute) pair with an optional suffix:
`String(h)` then a colon then the two-digit minutes then the suffix. -/
def clock12 (h m : Nat) (suffix : JStr) : JStr :=
  natChars h ++ ':' :: pad2 m ++ suffix

/-! Concrete inputs used to settle the individual claims. -/

/-- The spec's format (a) example schedule. -/
def c1Schedule : JVal :=
  .obj [("headers", .arr [jstr "9:00 AM", jstr "10:00 AM"]),
        ("rows", .arr [.arr [jstr "Monday", jstr "Standup", jstr "Review"]])]

/-- A verified user holding the format (a) example schedule. -/
def c1User : UserR :=
  ⟨"919059704960", some "User", true, none, c1Schedule, .undefV⟩

/-- A verified user with a schedule slot at Monday 15:00. -/
def c2User : UserR :=
  ⟨"919059704960", some "User", true, some true,
    .obj [("headers", .arr [jstr "3:00 PM"]),
          ("rows", .arr [.arr [jstr "Afternoon task"]])],
    .undefV⟩

/-- The test script's task: incomplete, due one minute from now, with
the one-minute flag still false. -/
def c2Task : TaskR :=
  ⟨"Test Reminder - Please ignore".data, 60000, "u1", false, false, false⟩

/-- A verified user whose two headers both parse to 9:00 with two
non-empty cells in Monday's row. -/
def c3User : UserR :=
  ⟨"911234567890", none, true, none,
    .obj [("headers", .arr [jstr "9:00 AM", jstr "09:00"]),
          ("rows", .arr [.arr [jstr "TaskA", jstr "TaskB"]])],
    .undefV⟩

/-- A verified user whose schedule rows are a string, making the
all-users logging scan call `forEach` on a string slice. -/
def c8BadUser : UserR :=
  ⟨"919999999990", none, false, none, .obj [("rows", jstr "ab")], .undefV⟩

/-- A verified user whose schedule rows contain null, making the
all-users logging scan read `row.day` of null. -/
def c9BadUser : UserR :=
  ⟨"919999999991", none, true, none, .obj [("rows", .arr [.jnull])], .undefV⟩

/-- A verified, WhatsApp-enabled user with no schedule at all. -/
def c6User : UserR :=
  ⟨"915555555555", none, true, none, .undefV, .undefV⟩

/-- A verified user whose schedule rows are new-format records. -/
def c10User : UserR :=
  ⟨"917777777777", none, true, none,
    .obj [("rows", .arr [.obj [("day", jstr "Monday"),
                               ("time", jstr "9:00 AM"),
                               ("task", jstr "Standup")]])],
    .undefV⟩

/-! Theorems settling the claims. -/

/-- C1: divergence evaluation.  On the spec's format (a) example, the
per-minute cron's legacy path selects Monday's row positionally and
pairs `headers[col]` with the cell at the same index `col`, so at
Monday 09:00 it dispatches the day-name cell text `Monday`, at 10:00 it
dispatches `Standup`, and it never dispatches `Review`; the
schedule/tasks endpoint processing the same rows pairs the cell at
index i with `headers[i-1]`, yielding Standup at 9:00 AM and Review at
10:00 AM exactly as the claim states. -/
theorem claim_C1_pairing_divergence :
    runCycle .monday .monday 9 0 [c1User] =
      [⟨"919059704960", "Monday".data⟩] ∧
    runCycle .monday .monday 10 0 [c1User] =
      [⟨"919059704960", "Standup".data⟩] ∧
    runCycle .monday .monday 11 0 [c1User] = [] ∧
    apiScheduleTasksLegacy c1Schedule
        [.arr [jstr "Monday", jstr "Standup", jstr "Review"]] =
      .ok [⟨"Monday".data, jstr "9:00 AM", jstr "Standup"⟩,
           ⟨"Monday".data, jstr "10:00 AM", jstr "Review"⟩] :=
  ⟨by rfl, by rfl, by rfl, by rfl⟩

/-- C2: evaluation at the failing input.  With an eligible user and an
incomplete task due sixty seconds later whose one-minute flag is false,
a minute tick dispatches nothing for the task and leaves the task store
(in particular the `oneMinuteReminderSent` flag) untouched, because the
only per-minute job with a body never queries tasks and the cron
registered for 1-minute reminders is an empty stub. -/
theorem claim_C2_stub_no_task_reminder :
    minuteTick .monday .monday 9 1 [c2User] [c2Task] = ([], [c2Task]) ∧
    oneMinuteRemindersCron [c2Task] = ([], [c2Task]) ∧
    c2Task.completed = false ∧
    c2Task.oneMinuteReminderSent = false :=
  ⟨by rfl, by rfl, by rfl, by rfl⟩

/-- C3: counterexample.  A user with two headers both parsing to 9:00
and two non-empty cells receives two dispatcher calls in one cycle, one
per matching slot with that slot's text alone, not a single combined
message. -/
theorem claim_C3_counterexample :
    runCycle .monday .monday 9 0 [c3User] =
      [⟨"911234567890", "TaskA".data⟩, ⟨"911234567890", "TaskB".data⟩] ∧
    (runCycle .monday .monday 9 0 [c3User]).length ≠ 1 :=
  ⟨by rfl, by decide⟩

/-- C5: counterexample.  Two entries with the same (day, time) key and
different texts: the dedup keeps the earlier one and drops the later
one, the opposite of last-writer-wins. -/
theorem claim_C5_counterexample :
    uniqueTasks [⟨"Monday", "9:00 AM", "A"⟩, ⟨"Monday", "9:00 AM", "B"⟩] =
      [⟨"Monday", "9:00 AM", "A"⟩] ∧
    uniqueTasks [⟨"Monday", "9:00 AM", "A"⟩, ⟨"Monday", "9:00 AM", "B"⟩] ≠
      [⟨"Monday", "9:00 AM", "B"⟩] :=
  ⟨by rfl, by decide⟩

/-- C6: counterexample.  A verified user with WhatsApp not disabled but
no schedule fails the eligibility check, so being verified with
WhatsApp enabled is not sufficient to be processed. -/
theorem claim_C6_counterexample :
    c6User.isVerified = true ∧
    whatsappEnabled c6User = true ∧
    hasPhoneB c6User = true ∧
    eligibleCheckE c6User = .ok false :=
  ⟨by rfl, by rfl, by rfl, by rfl⟩

/-- C8: counterexample.  A cycle containing a user whose schedule rows
are a string aborts during the unprotected all-users logging scan, so a
second, fully valid user with a due slot receives nothing, although
alone it would be dispatched to. -/
theorem claim_C8_counterexample :
    runCycle .monday .monday 9 0 [c8BadUser, c1User] = [] ∧
    runCycle .monday .monday 9 0 [c1User] =
      [⟨"919059704960", "Monday".data⟩] ∧
    scanUser c8BadUser = .error .typeError :=
  ⟨by rfl, by rfl, by rfl⟩

/-- C9: counterexample.  A user whose schedule rows contain null makes
the all-users logging scan throw, aborting the entire cycle: with that
user present the cycle dispatches nothing even though a valid user has
a due slot, instead of the malformed schedule merely yielding an empty
due-set. -/
theorem claim_C9_counterexample :
    runCycle .monday .monday 10 0 [c9BadUser, c1User] = [] ∧
    runCycle .monday .monday 10 0 [c1User] =
      [⟨"919059704960", "Standup".data⟩] ∧
    scanUser c9BadUser = .error .typeError :=
  ⟨by rfl, by rfl, by rfl⟩

/-- C3 amended: the dispatch loop sends one notification per matching
slot.  The dispatched calls are exactly one per slot whose time equals
the target and whose trimmed cell text is non-empty, each carrying that
slot's text alone — so a user with n matching slots gets n dispatcher
calls, never a single combined message. -/
theorem claim_C3_per_slot_dispatch (phone : String) (daySchedule : List JVal)
    (tH tM : Nat) (slots : List Slot) :
    dispatchSlots phone daySchedule tH tM slots =
      (slots.filter (fun s => (s.hours = tH && s.minutes = tM) &&
        !(slotTaskText daySchedule s.col).isEmpty)).map
        (fun s => ⟨phone, slotTaskText daySchedule s.col⟩) := by
  induction slots with
  | nil => rfl
  | cons s rest ih =>
    by_cases hmatch : s.hours = tH ∧ s.minutes = tM
    · by_cases htext : (slotTaskText daySchedule s.col).isEmpty = true
      · simp [dispatchSlots, List.filter_cons, hmatch.1, hmatch.2, htext, ih]
      · simp [dispatchSlots, List.filter_cons, hmatch.1, hmatch.2, htext, ih]
    · have hb : (decide (s.hours = tH) && decide (s.minutes = tM)) = false := by
        rcases Decidable.not_and_iff_or_not.mp hmatch with h | h <;> simp [h]
      simp only [dispatchSlots, List.filter_cons, hb, Bool.false_and,
        Bool.and_eq_true] at *
      rcases Decidable.not_and_iff_or_not.mp hmatch with h | h <;> simp [h, ih]

/-- Helper for C5: the dedup's survivors at any key, generalized over
the already-seen key set: none when the key was seen, otherwise exactly
the first entry of the list carrying that key. -/
theorem uniqueTasksGo_filter (k : JStr) (l : List ListedTask) :
    ∀ seen : List JStr,
      (uniqueTasksGo seen l).filter (fun t => decide (taskKey t = k)) =
        (if k ∈ seen then []
         else (l.filter (fun t => decide (taskKey t = k))).take 1) := by
  induction l with
  | nil => intro seen; by_cases h : k ∈ seen <;> simp [uniqueTasksGo, h]
  | cons t ts ih =>
    intro seen
    by_cases hmem : taskKey t ∈ seen
    · rw [uniqueTasksGo, if_pos hmem, ih seen]
      by_cases hk : taskKey t = k
      · rw [hk] at hmem
        simp [hmem]
      · by_cases hks : k ∈ seen <;> simp [hks, List.filter_cons, hk]
    · rw [uniqueTasksGo, if_neg hmem]
      by_cases hk : taskKey t = k
      · have hks' : k ∈ taskKey t :: seen := by
          rw [hk]; exact List.mem_cons_self _ _
        have hkn : ¬ k ∈ seen := by rw [← hk]; exact hmem
        have hgo := ih (taskKey t :: seen)
        rw [if_pos hks'] at hgo
        rw [hk] at hgo
        simp [List.filter_cons, hk, hkn]
        simpa using hgo
      · have hiff : (k ∈ taskKey t :: seen) ↔ k ∈ seen := by
          constructor
          · intro h
            rcases List.mem_cons.mp h with h | h
            · exact absurd h.symm hk
            · exact h
          · exact fun h => List.mem_cons_of_mem _ h
        by_cases hks : k ∈ seen
        · simp [List.filter_cons, ih (taskKey t :: seen), hiff.mpr hks, hks, hk]
        · have : ¬ k ∈ taskKey t :: seen := fun h => hks (hiff.mp h)
          simp [List.filter_cons, ih (taskKey t :: seen), this, hks, hk]

/-- C5 amended: deduplication is first-writer-wins.  For every key, the
entries surviving `uniqueTasks` with that key are exactly the first
entry of the input carrying it; every later entry at the same key is
dropped. -/
theorem claim_C5_first_writer_wins (l : List ListedTask) (k : JStr) :
    (uniqueTasks l).filter (fun t => decide (taskKey t = k)) =
      (l.filter (fun t => decide (taskKey t = k))).take 1 := by
  rw [uniqueTasks, uniqueTasksGo_filter k l []]
  simp

/-- Helper for C6: membership in the eligibility loop's output is
membership in the input plus a positive eligibility check. -/
theorem eligibleFilterE_mem (u : UserR) :
    ∀ (xs l : List UserR), eligibleFilterE xs = .ok l →
      (u ∈ l ↔ u ∈ xs ∧ eligibleCheckE u = .ok true) := by
  intro xs
  induction xs with
  | nil =>
    intro l h
    simp only [eligibleFilterE] at h
    cases h
    simp
  | cons x xs ih =>
    intro l h
    cases hx : eligibleCheckE x with
    | error e =>
      simp only [eligibleFilterE, hx, bind, Except.bind] at h
      exact Except.noConfusion h
    | ok b =>
      cases hrest : eligibleFilterE xs with
      | error e =>
        simp only [eligibleFilterE, hx, hrest, bind, Except.bind] at h
        exact Except.noConfusion h
      | ok rest =>
        simp only [eligibleFilterE, hx, hrest, bind, Except.bind, pure,
          Except.pure, Except.ok.injEq] at h
        subst h
        have hr := ih rest hrest
        cases b with
        | false =>
          rw [if_neg (by simp)]
          rw [hr]
          constructor
          · exact fun hc => ⟨List.mem_cons_of_mem _ hc.1, hc.2⟩
          · intro hc
            rcases List.mem_cons.mp hc.1 with h1 | h1
            · subst h1
              rw [hx] at hc
              cases hc.2
            · exact ⟨h1, hc.2⟩
        | true =>
          rw [if_pos rfl]
          constructor
          · intro hm
            rcases List.mem_cons.mp hm with h1 | h1
            · subst h1
              exact ⟨List.mem_cons_self _ _, hx⟩
            · have := (hr.mp h1)
              exact ⟨List.mem_cons_of_mem _ this.1, this.2⟩
          · intro hc
            rcases List.mem_cons.mp hc.1 with h1 | h1
            · subst h1
              exact List.mem_cons_self _ _
            · exact List.mem_cons_of_mem _ (hr.mpr ⟨h1, hc.2⟩)

/-- Helper for C6: a positive eligibility check is exactly WhatsApp not
explicitly disabled plus a positive validity computation. -/
theorem eligibleCheckE_ok_true (u : UserR) :
    eligibleCheckE u = .ok true ↔
      u.whatsapp ≠ some false ∧ hasValidScheduleE u = .ok true := by
  cases hv : hasValidScheduleE u with
  | error e =>
    simp only [eligibleCheckE, hv, bind, Except.bind]
    simp
  | ok b =>
    simp only [eligibleCheckE, hv, bind, Except.bind, pure, Except.pure]
    cases b with
    | false => simp [whatsappEnabled]
    | true =>
      by_cases hw : u.whatsapp = some false <;>
        simp [whatsappEnabled, hw]

/-- C6 amended: a user is processed by the dispatch loop exactly when
the user survives both eligibility stages: non-empty post-trim phone,
verified, WhatsApp not explicitly false (absence counts as enabled),
and a schedule passing the validity computation. -/
theorem claim_C6_eligibility (us l : List UserR) (u : UserR)
    (h : eligibleFilterE (us.filter verifiedKeep) = .ok l) :
    u ∈ l ↔
      u ∈ us ∧ (u.phone ≠ "" ∧ trimChars u.phone.data ≠ []) ∧
        u.isVerified = true ∧ u.whatsapp ≠ some false ∧
        hasValidScheduleE u = .ok true := by
  rw [eligibleFilterE_mem u _ l h, List.mem_filter, eligibleCheckE_ok_true]
  simp only [verifiedKeep, Bool.and_eq_true, decide_eq_true_eq]
  constructor
  · rintro ⟨⟨hm, ⟨hp, hv⟩⟩, hw, hs⟩
    exact ⟨hm, hp, hv, hw, hs⟩
  · rintro ⟨hm, hp, hv, hw, hs⟩
    exact ⟨⟨hm, hp, hv⟩, hw, hs⟩

/-- A verified, WhatsApp-enabled user with a valid legacy schedule. -/
def c6eligUser : UserR :=
  ⟨"911234500000", none, true, none,
    .obj [("headers", .arr [jstr "9:00 AM"]),
          ("rows", .arr [.arr [jstr "T"]])],
    .undefV⟩

/-- Witness for C6: the amended equivalence applied to a concrete
one-user cycle. -/
theorem claim_C6_eligibility_witness :
    c6eligUser.phone ≠ "" ∧ trimChars c6eligUser.phone.data ≠ [] ∧
      c6eligUser.isVerified = true ∧ c6eligUser.whatsapp ≠ some false ∧
      hasValidScheduleE c6eligUser = .ok true := by
  have h := (claim_C6_eligibility [c6eligUser] [c6eligUser] c6eligUser
    (by rfl)).mp (List.mem_cons_self _ _)
  exact ⟨h.2.1.1, h.2.1.2, h.2.2.1, h.2.2.2.1, h.2.2.2.2⟩

/-- C8 amended: inside the dispatch loop, a user whose processing
throws is isolated by the per-user catch: removing that user from the
loop changes nothing, so every other user's dispatches are exactly as
if the failing user were absent. -/
theorem claim_C8_dispatch_isolation (td : Day) (tH tM : Nat) (u : UserR)
    (e : JsErr) (us vs : List UserR)
    (h : processUser td tH tM u = .error e) :
    dispatchPhase td tH tM (us ++ u :: vs) =
      dispatchPhase td tH tM (us ++ vs) := by
  induction us with
  | nil => simp [dispatchPhase, handleUser, h]
  | cons x xs ih => simp [dispatchPhase, ih]

/-- Witness for C8: the isolation theorem applied to a concrete
dispatch loop with a new-format (ReferenceError) user between two
valid users. -/
theorem claim_C8_dispatch_isolation_witness :
    dispatchPhase .monday 10 0 [c1User, c10User, c1User] =
      dispatchPhase .monday 10 0 [c1User, c1User] :=
  claim_C8_dispatch_isolation .monday 10 0 c10User .referenceError
    [c1User] [c1User] (by rfl)

/-- The benign schedule shapes: falsy schedule, falsy rows, or an empty
rows array.  These are the unrecognized/absent shapes that every pass
of the cycle handles without a throw and without a dispatch. -/
def benignSchedule (v : JVal) : Bool :=
  !truthy v || !truthy (fieldD v "rows") ||
    (match fieldD v "rows" with
     | .arr xs => xs.isEmpty
     | _ => false)

/-- A falsy rows value never exposes a positive `length`. -/
theorem falsy_rows_posLen (rows : JVal) (h : truthy rows = false) :
    posLen (optField rows "length") = false := by
  cases rows <;> simp_all [truthy, optField, nullish, fieldD, posLen]

/-- A benign schedule passes the all-users logging scan. -/
theorem benign_scanUser (u : UserR) (h : benignSchedule u.schedule = true) :
    scanUser u = .ok () := by
  unfold scanUser
  by_cases ht : truthy u.schedule
  · simp only [benignSchedule, ht, Bool.not_true, Bool.false_or,
      Bool.or_eq_true, Bool.not_eq_true'] at h
    simp only [ht, if_true]
    generalize hrw : fieldD u.schedule "rows" = rv at h ⊢
    rcases h with h | h
    · rw [falsy_rows_posLen _ h]
      simp
    · cases rv <;> simp_all [optField, nullish, fieldD, posLen]
  · simp [ht]

/-- A benign schedule fails the eligibility check without a throw. -/
theorem benign_eligibleCheck (u : UserR)
    (h : benignSchedule u.schedule = true) :
    eligibleCheckE u = .ok false := by
  have hval : hasValidScheduleE u = .ok false := by
    unfold hasValidScheduleE
    by_cases ht : truthy u.schedule
    · simp only [benignSchedule, ht, Bool.not_true, Bool.false_or,
        Bool.or_eq_true, Bool.not_eq_true'] at h
      simp only [ht, Bool.not_true, Bool.false_eq_true, if_false]
      generalize hrw : fieldD u.schedule "rows" = rv at h ⊢
      rcases h with h | h
      · have hnf : isNewFormatE rv = .ok false := by
          unfold isNewFormatE
          rw [h]
          simp
        simp [hnf, bind, Except.bind, h, pure, Except.pure]
      · cases rv <;> simp_all [isNewFormatE, truthy, optField, nullish,
          fieldD, posLen, isArrB, bind, Except.bind, pure, Except.pure]
    · simp [ht]
  unfold eligibleCheckE
  rw [hval]
  simp [bind, Except.bind, pure, Except.pure]

/-- Inserting a user whose logging scan is a no-op does not change the
scan's outcome. -/
theorem scanUsers_insert (u : UserR) (h : scanUser u = .ok ())
    (xs ys : List UserR) :
    scanUsers (xs ++ u :: ys) = scanUsers (xs ++ ys) := by
  induction xs with
  | nil => simp only [List.nil_append, scanUsers, h, bind, Except.bind]
  | cons x xs ih =>
    rw [List.cons_append, List.cons_append, scanUsers, scanUsers, ih]

/-- Inserting a user whose eligibility check is a clean false does not
change the eligibility loop's outcome. -/
theorem eligibleFilterE_insert (u : UserR)
    (h : eligibleCheckE u = .ok false) (xs ys : List UserR) :
    eligibleFilterE (xs ++ u :: ys) = eligibleFilterE (xs ++ ys) := by
  induction xs with
  | nil =>
    simp only [List.nil_append, eligibleFilterE, h, bind, Except.bind]
    cases eligibleFilterE ys <;> simp [pure, Except.pure]
  | cons x xs ih =>
    rw [List.cons_append, List.cons_append, eligibleFilterE, eligibleFilterE, ih]

/-- C9 amended: a user with a benign absent/unrecognized schedule
(falsy schedule, falsy rows, or empty rows array) is handled totally by
the cycle: no throw, no dispatch, and every other user is processed
exactly as if that user were absent.  (The counterexample shows other
malformed shapes instead abort the whole cycle.) -/
theorem claim_C9_benign_no_effect (cd td : Day) (tH tM : Nat) (u : UserR)
    (us vs : List UserR) (h : benignSchedule u.schedule = true) :
    runCycle cd td tH tM (us ++ u :: vs) = runCycle cd td tH tM (us ++ vs) := by
  have h1 := benign_scanUser u h
  have h2 := benign_eligibleCheck u h
  unfold runCycle runCycleE
  simp only [scanUsers_insert u h1, List.filter_append, List.filter_cons]
  cases hv : verifiedKeep u with
  | true => simp only [if_true, eligibleFilterE_insert u h2]
  | false => simp only [Bool.false_eq_true, if_false]

/-- Witness for C9: inserting a schedule-less verified user into a
concrete cycle leaves the cycle's dispatches unchanged. -/
theorem claim_C9_benign_no_effect_witness :
    runCycle .monday .monday 10 0 [c1User, c6User] =
      runCycle .monday .monday 10 0 [c1User] :=
  claim_C9_benign_no_effect .monday .monday 10 0 c6User [c1User] [] (by rfl)

/-- A new-format record row: an object carrying a `day` or `Day` key. -/
def isDayRecordB : JVal → Bool
  | .obj fs => fs.any (fun e => e.1 = "day") || fs.any (fun e => e.1 = "Day")
  | _ => false

/-- A new-format record is truthy and makes the dispatch loop's
new-format test answer true. -/
theorem isDayRecord_newFormat (v : JVal) (h : isDayRecordB v = true) :
    truthy v = true ∧ isNewFormatRowE v = .ok true := by
  cases v with
  | obj gs =>
    refine ⟨rfl, ?_⟩
    simp only [isDayRecordB, Bool.or_eq_true] at h
    unfold isNewFormatRowE
    rcases h with h | h <;>
      simp [typeofIsObject, hasKeyE, h, bind, Except.bind, pure, Except.pure]
  | undefV => cases h
  | jnull => cases h
  | bool b => cases h
  | num n => cases h
  | str s => cases h
  | arr xs => cases h

/-- C10: for every user whose stored schedule (after the
`weeklySchedule || schedule` lookup) is an object whose rows are a
non-empty array of new-format records, the dispatch loop's new-format
branch reads the undeclared identifiers `row`/`index` and throws a
ReferenceError, regardless of the rows' contents and of the target
time; the per-user catch swallows it, so no schedule-grid reminder is
ever dispatched for such a user. -/
theorem claim_C10_new_format_reference_error (td : Day) (tH tM : Nat)
    (u : UserR) (fs : List (String × JVal)) (xs : List JVal)
    (h1 : jsOr u.weeklySchedule u.schedule = .obj fs)
    (h2 : objLookup fs "rows" = some (.arr xs))
    (h3 : xs ≠ [])
    (h4 : ∀ r ∈ xs, isDayRecordB r = true) :
    processUser td tH tM u = .error .referenceError ∧
      handleUser td tH tM u = [] := by
  have hmem : jsOr (xs.getD (dayToRowMap.getD td.getDay 0) .undefV)
      (xs.getD 0 .undefV) ∈ xs := by
    by_cases hi : dayToRowMap.getD td.getDay 0 < xs.length
    · rw [List.getD_eq_getElem _ _ hi]
      have hx : xs[dayToRowMap.getD td.getDay 0] ∈ xs := List.getElem_mem hi
      have ht := (isDayRecord_newFormat _ (h4 _ hx)).1
      rw [jsOr, ht]
      simp only [if_true]
      exact hx
    · rw [List.getD_eq_default _ _ (Nat.le_of_not_lt hi)]
      have h0 : 0 < xs.length := List.length_pos.mpr h3
      rw [List.getD_eq_getElem _ _ h0]
      simp only [jsOr, truthy, Bool.false_eq_true, if_false]
      exact List.getElem_mem h0
  have hrec := h4 _ hmem
  have ht := (isDayRecord_newFormat _ hrec).1
  have hnf := (isDayRecord_newFormat _ hrec).2
  have hcoerce : coerceSchedule (.obj fs) = .obj fs := by
    unfold coerceSchedule
    simp [isArrB, h2, truthy]
  have hmain : processUser td tH tM u = .error .referenceError := by
    unfold processUser
    rw [h1]
    simp only [truthy, Bool.not_true, Bool.false_eq_true, if_false, hcoerce]
    have hrows : fieldD (.obj fs) "rows" = .arr xs := by
      simp [fieldD, h2]
    rw [hrows]
    obtain ⟨y, ys, hxs⟩ : ∃ y ys, xs = y :: ys := by
      cases xs with
      | nil => exact absurd rfl h3
      | cons y ys => exact ⟨y, ys, rfl⟩
    subst hxs
    simp only [List.isEmpty_cons, Bool.false_eq_true, if_false]
    rw [hnf]
    simp [bind, Except.bind]
  exact ⟨hmain, by unfold handleUser; rw [hmain]⟩

/-- Witness for C10: the ReferenceError theorem applied to a concrete
new-format user. -/
theorem claim_C10_witness :
    processUser .monday 9 0 c10User = .error .referenceError ∧
      handleUser .monday 9 0 c10User = [] :=
  claim_C10_new_format_reference_error .monday 9 0 c10User
    [("rows", .arr [.obj [("day", jstr "Monday"),
                          ("time", jstr "9:00 AM"),
                          ("task", jstr "Standup")]])]
    [.obj [("day", jstr "Monday"), ("time", jstr "9:00 AM"),
           ("task", jstr "Standup")]]
    (by rfl) (by rfl) (List.cons_ne_nil _ _) (by decide)

/-- Helper for C4: the slot parser only ever accepts in-range times; an
out-of-range hour or minute never survives the final validation, so
such an entry can never equal a target time. -/
theorem validateTime_range (a b : Int) (hm : Nat × Nat)
    (h : validateTime a b = some hm) : hm.1 ≤ 23 ∧ hm.2 ≤ 59 := by
  unfold validateTime at h
  split at h
  · exact Option.noConfusion h
  · rename_i hcond
    injection h with h
    subst h
    simp only [Bool.or_eq_true, decide_eq_true_eq, not_or] at hcond
    constructor <;> simp <;> omega

/-- The slot parser returns only validated results. -/
theorem parseClock_range (s : JStr) (hm : Nat × Nat)
    (h : parseClockChars s = some hm) : hm.1 ≤ 23 ∧ hm.2 ≤ 59 := by
  simp only [parseClockChars] at h
  repeat split at h
  all_goals first
    | exact validateTime_range _ _ _ h
    | exact Option.noConfusion h

/-- Every digit-table character is a decimal digit. -/
theorem digitChar_isDigit (d : Nat) : isDigitC (digitChar d) = true := by
  unfold digitChar
  split <;> decide

/-- Value of a digit-table character below ten. -/
theorem digitChar_val (d : Nat) (h : d < 10) :
    (digitChar d).toNat - '0'.toNat = d := by
  interval_cases d <;> decide

/-- A decimal digit is not whitespace. -/
theorem isDigit_not_space (c : Char) (h : isDigitC c = true) :
    isSpaceC c = false := by
  simp only [isSpaceC, Bool.or_eq_false_iff, decide_eq_false_iff_not]
  refine ⟨⟨⟨?_, ?_⟩, ?_⟩, ?_⟩ <;> rintro rfl <;> exact absurd h (by decide)

/-- A decimal digit is not the colon. -/
theorem isDigit_not_colon (c : Char) (h : isDigitC c = true) : ¬ c = ':' := by
  rintro rfl
  exact absurd h (by decide)

/-- A decimal digit is not an A/P period character. -/
theorem isDigit_not_ap (c : Char) (h : isDigitC c = true) : isApC c = false := by
  simp only [isApC, Bool.or_eq_false_iff, decide_eq_false_iff_not]
  refine ⟨⟨⟨?_, ?_⟩, ?_⟩, ?_⟩ <;> rintro rfl <;> exact absurd h (by decide)

/-- A decimal digit is in the `[0-9:]` class. -/
theorem isDigit_dc (c : Char) (h : isDigitC c = true) : isDigitColonC c = true := by
  simp [isDigitColonC, h]

/-- A period character is not whitespace. -/
theorem isAp_not_space (a : Char) (h : isApC a = true) : isSpaceC a = false := by
  simp only [isApC, Bool.or_eq_true, decide_eq_true_eq] at h
  rcases h with ((rfl | rfl) | rfl) | rfl <;> decide

/-- `takeWhile` keeps a list all of whose elements satisfy the test. -/
theorem takeWhile_all (p : Char → Bool) (l : JStr) (h : ∀ c ∈ l, p c = true) :
    l.takeWhile p = l := by
  induction l with
  | nil => rfl
  | cons c cs ih =>
    have hc := h c (List.mem_cons_self _ _)
    simp [List.takeWhile_cons, hc,
      ih (fun x hx => h x (List.mem_cons_of_mem _ hx))]

/-- `takeWhile` stops exactly at the first failing element. -/
theorem takeWhile_stop (p : Char → Bool) (xs ys : JStr) (y : Char)
    (hxs : ∀ c ∈ xs, p c = true) (hy : p y = false) :
    (xs ++ y :: ys).takeWhile p = xs := by
  induction xs with
  | nil => simp [List.takeWhile_cons, hy]
  | cons c cs ih =>
    have hc := hxs c (List.mem_cons_self _ _)
    simp [List.takeWhile_cons, hc,
      ih (fun x hx => hxs x (List.mem_cons_of_mem _ hx))]

/-- `dropWhile` drops exactly up to the first failing element. -/
theorem dropWhile_stop (p : Char → Bool) (xs ys : JStr) (y : Char)
    (hxs : ∀ c ∈ xs, p c = true) (hy : p y = false) :
    (xs ++ y :: ys).dropWhile p = y :: ys := by
  induction xs with
  | nil => simp [List.dropWhile_cons, hy]
  | cons c cs ih =>
    have hc := hxs c (List.mem_cons_self _ _)
    simp [List.dropWhile_cons, hc,
      ih (fun x hx => hxs x (List.mem_cons_of_mem _ hx))]

/-- Trimming is a no-op on a string with non-space first and last
characters. -/
theorem trimChars_noop (c : Char) (mid : JStr) (e : Char)
    (hc : isSpaceC c = false) (he : isSpaceC e = false) :
    trimChars (c :: (mid ++ [e])) = c :: (mid ++ [e]) := by
  unfold trimChars
  have h1 : (c :: (mid ++ [e])).dropWhile isSpaceC = c :: (mid ++ [e]) := by
    simp [List.dropWhile_cons, hc]
  have h2 : (c :: (mid ++ [e])).reverse = e :: (mid.reverse ++ [c]) := by
    simp
  have h3 : (e :: (mid.reverse ++ [c])).dropWhile isSpaceC =
      e :: (mid.reverse ++ [c]) := by
    simp [List.dropWhile_cons, he]
  rw [h1, h2, h3, ← h2, List.reverse_reverse]

/-- The period regex finds nothing in a string without period
characters. -/
theorem findPeriodMatch_none (l : JStr) (h : ∀ c ∈ l, isApC c = false) :
    findPeriodMatch l = none := by
  induction l with
  | nil => rfl
  | cons c cs ih =>
    have ihcs := ih (fun x hx => h x (List.mem_cons_of_mem _ hx))
    unfold findPeriodMatch
    by_cases hc : isDigitColonC c = true
    · rw [if_pos hc]
      rcases hE : (cs.dropWhile isDigitColonC).dropWhile isSpaceC with _ | ⟨a, tail⟩
      · simp only [hE]
        exact ihcs
      · have ha : a ∈ cs := by
          have h1 : a ∈ (cs.dropWhile isDigitColonC).dropWhile isSpaceC := by
            rw [hE]
            exact List.mem_cons_self _ _
          have h2 := ((List.dropWhile_suffix isSpaceC).sublist).subset h1
          exact ((List.dropWhile_suffix isDigitColonC).sublist).subset h2
        simp only [hE]
        simp [h a (List.mem_cons_of_mem _ ha), ihcs]
    · rw [if_neg hc]
      exact ihcs

/-- The period regex on a digit-colon run followed by a space and a
period letter and `M` captures the run and the two-letter period. -/
theorem findPeriodMatch_suffix (c : Char) (rest : JStr) (a : Char)
    (hc : isDigitColonC c = true) (hrest : ∀ x ∈ rest, isDigitColonC x = true)
    (ha : isApC a = true) :
    findPeriodMatch (c :: (rest ++ ' ' :: a :: ['M'])) =
      some (c :: rest, [a, 'M']) := by
  have htake := takeWhile_stop isDigitColonC rest (a :: ['M']) ' ' hrest (by decide)
  have hdrop := dropWhile_stop isDigitColonC rest (a :: ['M']) ' ' hrest (by decide)
  have hsp : (' ' :: a :: ['M']).dropWhile isSpaceC = a :: ['M'] := by
    rw [List.dropWhile_cons, if_pos (by decide), List.dropWhile_cons,
      if_neg (by simp [isAp_not_space a ha])]
  unfold findPeriodMatch
  rw [if_pos hc]
  simp only [htake, hdrop, hsp]
  simp [ha, isMC]

/-- `splitOnColon` always yields at least one part. -/
theorem splitOnColon_ne_nil (l : JStr) : splitOnColon l ≠ [] := by
  cases l with
  | nil => simp [splitOnColon]
  | cons c cs =>
    unfold splitOnColon
    by_cases hc : c = ':'
    · simp [hc]
    · rcases h : splitOnColon cs with _ | ⟨p, ps⟩ <;> simp [hc, h]

/-- Splitting at the first colon of a colon-free prefix. -/
theorem splitOnColon_append (xs ys : JStr) (h : ∀ c ∈ xs, ¬ c = ':') :
    splitOnColon (xs ++ ':' :: ys) = xs :: splitOnColon ys := by
  induction xs with
  | nil => simp [splitOnColon]
  | cons c cs ih =>
    have hc := h c (List.mem_cons_self _ _)
    have ihc := ih (fun x hx => h x (List.mem_cons_of_mem _ hx))
    rw [List.cons_append]
    conv_lhs => rw [splitOnColon]
    rw [if_neg hc, ihc]

/-- Splitting a colon-free string yields that single part. -/
theorem splitOnColon_nocolon (xs : JStr) (h : ∀ c ∈ xs, ¬ c = ':') :
    splitOnColon xs = [xs] := by
  induction xs with
  | nil => rfl
  | cons c cs ih =>
    have hc := h c (List.mem_cons_self _ _)
    unfold splitOnColon
    rw [if_neg hc, ih (fun x hx => h x (List.mem_cons_of_mem _ hx))]

/-- Digit value of a one-character run. -/
theorem digitsVal_one (a : Char) : digitsVal [a] = a.toNat - '0'.toNat := by
  simp [digitsVal]

/-- Digit value of a two-character run. -/
theorem digitsVal_two (a b : Char) :
    digitsVal [a, b] = 10 * (a.toNat - '0'.toNat) + (b.toNat - '0'.toNat) := by
  simp [digitsVal]

/-- `parseInt` on a non-empty digit run yields its value. -/
theorem jsParseInt_digits (D : Char) (ds : JStr)
    (hD : isDigitC D = true) (hds : ∀ c ∈ ds, isDigitC c = true) :
    jsParseInt (D :: ds) = some ((digitsVal (D :: ds) : Int)) := by
  have hAll : ∀ c ∈ D :: ds, isDigitC c = true := by
    intro c hc
    rcases List.mem_cons.mp hc with rfl | hc
    · exact hD
    · exact hds c hc
  have hdrop : (D :: ds).dropWhile isSpaceC = D :: ds := by
    simp [List.dropWhile_cons, isDigit_not_space D hD]
  have htake := takeWhile_all isDigitC (D :: ds) hAll
  simp only [jsParseInt, hdrop]
  split
  · rename_i heq
    rw [List.cons.injEq] at heq
    rw [heq.1] at hD
    exact absurd hD (by decide)
  · rename_i heq
    rw [List.cons.injEq] at heq
    rw [heq.1] at hD
    exact absurd hD (by decide)
  · simp [htake]

/-- The two-digit padding below one hundred, explicitly. -/
theorem pad2_eq (m : Nat) (_hm : m < 100) :
    pad2 m = [digitChar (m / 10), digitChar (m % 10)] := by
  simp only [pad2, natChars]
  by_cases h : m < 10
  · rw [if_pos h]
    rw [Nat.div_eq_of_lt h, Nat.mod_eq_of_lt h]
    rfl
  · rw [if_neg h]
    rfl

/-- The two-digit padding renders its value. -/
theorem digitsVal_pad2 (m : Nat) (hm : m < 100) : digitsVal (pad2 m) = m := by
  rw [pad2_eq m hm, digitsVal_two, digitChar_val _ (by omega),
    digitChar_val _ (by omega)]
  omega

/-- All characters of the two-digit padding are digits. -/
theorem pad2_digits (m : Nat) (hm : m < 100) :
    ∀ c ∈ pad2 m, isDigitC c = true := by
  intro c hc
  rw [pad2_eq m hm] at hc
  rcases List.mem_cons.mp hc with rfl | hc
  · exact digitChar_isDigit _
  · rcases List.mem_cons.mp hc with rfl | hc
    · exact digitChar_isDigit _
    · cases hc

/-- The decimal rendering as a digit run with its value. -/
theorem natChars_spec (n : Nat) (hn : n < 100) :
    ∃ D ds, natChars n = D :: ds ∧ isDigitC D = true ∧
      (∀ c ∈ ds, isDigitC c = true) ∧ digitsVal (D :: ds) = n := by
  unfold natChars
  by_cases h : n < 10
  · refine ⟨digitChar n, [], by simp [h], digitChar_isDigit _, by simp, ?_⟩
    rw [digitsVal_one, digitChar_val _ h]
  · refine ⟨digitChar (n / 10), [digitChar (n % 10)], by simp [h],
      digitChar_isDigit _, ?_, ?_⟩
    · intro c hc
      rcases List.mem_cons.mp hc with rfl | hc
      · exact digitChar_isDigit _
      · cases hc
    · rw [digitsVal_two, digitChar_val _ (by omega), digitChar_val _ (by omega)]
      omega

/-- The two-digit padding as a digit run with its value. -/
theorem pad2_spec (n : Nat) (hn : n < 100) :
    ∃ D ds, pad2 n = D :: ds ∧ isDigitC D = true ∧
      (∀ c ∈ ds, isDigitC c = true) ∧ digitsVal (D :: ds) = n := by
  refine ⟨digitChar (n / 10), [digitChar (n % 10)], pad2_eq n hn,
    digitChar_isDigit _, ?_, ?_⟩
  · intro c hc
    rcases List.mem_cons.mp hc with rfl | hc
    · exact digitChar_isDigit _
    · cases hc
  · rw [digitsVal_two, digitChar_val _ (by omega), digitChar_val _ (by omega)]
    omega

/-- Acceptance of an in-range hour/minute pair. -/
theorem validateTime_eval (hi mi : Int) (h2 m2 : Nat)
    (hh : hi = (h2 : Int)) (hmm : mi = (m2 : Int))
    (hle : h2 ≤ 23) (mle : m2 ≤ 59) :
    validateTime hi mi = some (h2, m2) := by
  subst hh hmm
  unfold validateTime
  have hb : ((h2 : Int) < 0 || (h2 : Int) > 23 || (m2 : Int) < 0 ||
      (m2 : Int) > 59) = false := by
    simp only [Bool.or_eq_false_iff, decide_eq_false_iff_not]
    refine ⟨⟨⟨?_, ?_⟩, ?_⟩, ?_⟩ <;> omega
  rw [hb]
  simp

/-- Rejection of an out-of-range hour or minute. -/
theorem validateTime_none (hi mi : Int)
    (h : 23 < hi ∨ 59 < mi ∨ hi < 0 ∨ mi < 0) :
    validateTime hi mi = none := by
  unfold validateTime
  have hb : (hi < 0 || hi > 23 || mi < 0 || mi > 59) = true := by
    simp only [Bool.or_eq_true, decide_eq_true_eq]
    omega
  rw [hb, if_pos rfl]

/-- The slot parser on a digit-run hour, colon, two-digit minute, no
period suffix: hours and minutes are parsed and range-checked, with no
12-hour conversion. -/
theorem parseClock_digit_run (D : Char) (ds : JStr) (m : Nat)
    (hD : isDigitC D = true) (hds : ∀ c ∈ ds, isDigitC c = true)
    (hm : m < 100) :
    parseClockChars ((D :: ds) ++ ':' :: pad2 m) =
      validateTime ((digitsVal (D :: ds) : Nat) : Int) (m : Int) := by
  have hAll : ∀ c ∈ D :: ds, isDigitC c = true := by
    intro c hc
    rcases List.mem_cons.mp hc with rfl | hc
    · exact hD
    · exact hds c hc
  obtain ⟨P, Q, hPQ⟩ : ∃ P Q, pad2 m = [P, Q] := ⟨_, _, pad2_eq m hm⟩
  have hPdig : isDigitC P = true :=
    pad2_digits m hm P (by rw [hPQ]; exact List.mem_cons_self _ _)
  have hQdig : isDigitC Q = true :=
    pad2_digits m hm Q
      (by rw [hPQ]; exact List.mem_cons_of_mem _ (List.mem_cons_self _ _))
  have hvalPQ : digitsVal [P, Q] = m := by
    rw [← hPQ]
    exact digitsVal_pad2 m hm
  rw [hPQ]
  have hshape : (D :: ds) ++ ':' :: [P, Q] = D :: ((ds ++ ':' :: [P]) ++ [Q]) := by
    simp
  have htrim : trimChars ((D :: ds) ++ ':' :: [P, Q]) =
      (D :: ds) ++ ':' :: [P, Q] := by
    rw [hshape]
    exact trimChars_noop _ _ _ (isDigit_not_space _ hD) (isDigit_not_space _ hQdig)
  have hap : ∀ c ∈ (D :: ds) ++ ':' :: [P, Q], isApC c = false := by
    intro c hc
    rcases List.mem_append.mp hc with hc | hc
    · exact isDigit_not_ap _ (hAll c hc)
    · rcases List.mem_cons.mp hc with rfl | hc
      · decide
      · rcases List.mem_cons.mp hc with rfl | hc
        · exact isDigit_not_ap _ hPdig
        · rcases List.mem_cons.mp hc with rfl | hc
          · exact isDigit_not_ap _ hQdig
          · cases hc
  have hfpm := findPeriodMatch_none _ hap
  have hsplit : splitOnColon ((D :: ds) ++ ':' :: [P, Q]) = [D :: ds, [P, Q]] := by
    rw [splitOnColon_append _ _ (fun c hc => isDigit_not_colon c (hAll c hc)),
      splitOnColon_nocolon _ ?_]
    intro c hc
    rcases List.mem_cons.mp hc with rfl | hc
    · exact isDigit_not_colon _ hPdig
    · rcases List.mem_cons.mp hc with rfl | hc
      · exact isDigit_not_colon _ hQdig
      · cases hc
  have hparseH := jsParseInt_digits D ds hD hds
  have hparseM := jsParseInt_digits P [Q] hPdig (by
    intro c hc
    rcases List.mem_cons.mp hc with rfl | hc
    · exact hQdig
    · cases hc)
  simp only [parseClockChars, htrim, hfpm, hsplit, List.headD_cons,
    List.getD_cons_succ, List.getD_cons_zero, List.isEmpty_cons,
    hparseH, hparseM, hvalPQ]
  simp [hparseM, hvalPQ]

/-- The slot parser on a digit-run hour, colon, two-digit minute and a
period suffix: the period is upper-cased and the 12-hour conversion is
applied before the range check. -/
theorem parseClock_digit_run_period (D : Char) (ds : JStr) (m : Nat) (a : Char)
    (hD : isDigitC D = true) (hds : ∀ c ∈ ds, isDigitC c = true)
    (hm : m < 100) (ha : isApC a = true) :
    parseClockChars ((D :: ds) ++ ':' :: pad2 m ++ ' ' :: a :: ['M']) =
      validateTime
        (if Char.toUpper a = 'P' then
          (if ((digitsVal (D :: ds) : Nat) : Int) < 12 then
            ((digitsVal (D :: ds) : Nat) : Int) + 12
           else ((digitsVal (D :: ds) : Nat) : Int))
         else (if ((digitsVal (D :: ds) : Nat) : Int) = 12 then 0
           else ((digitsVal (D :: ds) : Nat) : Int)))
        (m : Int) := by
  have hAll : ∀ c ∈ D :: ds, isDigitC c = true := by
    intro c hc
    rcases List.mem_cons.mp hc with rfl | hc
    · exact hD
    · exact hds c hc
  obtain ⟨P, Q, hPQ⟩ : ∃ P Q, pad2 m = [P, Q] := ⟨_, _, pad2_eq m hm⟩
  have hPdig : isDigitC P = true :=
    pad2_digits m hm P (by rw [hPQ]; exact List.mem_cons_self _ _)
  have hQdig : isDigitC Q = true :=
    pad2_digits m hm Q
      (by rw [hPQ]; exact List.mem_cons_of_mem _ (List.mem_cons_self _ _))
  have hvalPQ : digitsVal [P, Q] = m := by
    rw [← hPQ]
    exact digitsVal_pad2 m hm
  rw [hPQ]
  have hrun : ∀ c ∈ ds ++ ':' :: [P, Q], isDigitColonC c = true := by
    intro c hc
    rcases List.mem_append.mp hc with hc | hc
    · exact isDigit_dc _ (hds c hc)
    · rcases List.mem_cons.mp hc with rfl | hc
      · simp [isDigitColonC]
      · rcases List.mem_cons.mp hc with rfl | hc
        · exact isDigit_dc _ hPdig
        · rcases List.mem_cons.mp hc with rfl | hc
          · exact isDigit_dc _ hQdig
          · cases hc
  have hfpm : findPeriodMatch ((D :: ds) ++ ':' :: [P, Q] ++ ' ' :: a :: ['M']) =
      some (D :: (ds ++ ':' :: [P, Q]), [a, 'M']) := by
    have hfshape : (D :: ds) ++ ':' :: [P, Q] ++ ' ' :: a :: ['M'] =
        D :: ((ds ++ ':' :: [P, Q]) ++ ' ' :: a :: ['M']) := by
      simp
    rw [hfshape]
    exact findPeriodMatch_suffix D _ a (isDigit_dc D hD) hrun ha
  have htrim : trimChars ((D :: ds) ++ ':' :: [P, Q] ++ ' ' :: a :: ['M']) =
      (D :: ds) ++ ':' :: [P, Q] ++ ' ' :: a :: ['M'] := by
    have hsh : (D :: ds) ++ ':' :: [P, Q] ++ ' ' :: a :: ['M'] =
        D :: ((ds ++ ':' :: [P, Q] ++ [' ', a]) ++ ['M']) := by
      simp
    rw [hsh]
    exact trimChars_noop _ _ _ (isDigit_not_space _ hD) (by decide)
  have htrim1 : trimChars (D :: (ds ++ ':' :: [P, Q])) =
      D :: (ds ++ ':' :: [P, Q]) := by
    have hsh : D :: (ds ++ ':' :: [P, Q]) = D :: ((ds ++ ':' :: [P]) ++ [Q]) := by
      simp
    rw [hsh]
    exact trimChars_noop _ _ _ (isDigit_not_space _ hD) (isDigit_not_space _ hQdig)
  have hsplit : splitOnColon (D :: (ds ++ ':' :: [P, Q])) = [D :: ds, [P, Q]] := by
    have hsh : D :: (ds ++ ':' :: [P, Q]) = (D :: ds) ++ ':' :: [P, Q] := rfl
    rw [hsh, splitOnColon_append _ _ (fun c hc => isDigit_not_colon c (hAll c hc)),
      splitOnColon_nocolon _ ?_]
    intro c hc
    rcases List.mem_cons.mp hc with rfl | hc
    · exact isDigit_not_colon _ hPdig
    · rcases List.mem_cons.mp hc with rfl | hc
      · exact isDigit_not_colon _ hQdig
      · cases hc
  have hparseH := jsParseInt_digits D ds hD hds
  have hparseM := jsParseInt_digits P [Q] hPdig (by
    intro c hc
    rcases List.mem_cons.mp hc with rfl | hc
    · exact hQdig
    · cases hc)
  have hper : upperChars [a, 'M'] = [Char.toUpper a, 'M'] := rfl
  have hup : Char.toUpper a = 'A' ∨ Char.toUpper a = 'P' := by
    simp only [isApC, Bool.or_eq_true, decide_eq_true_eq] at ha
    rcases ha with ((rfl | rfl) | rfl) | rfl
    · left; rfl
    · left; rfl
    · right; rfl
    · right; rfl
  simp only [parseClockChars, htrim, hfpm, hper, htrim1, hsplit, List.headD_cons,
    List.getD_cons_succ, List.getD_cons_zero, List.isEmpty_cons,
    hparseH, hparseM, hvalPQ]
  rcases hup with hUp | hUp <;> rw [hUp] <;> simp [hparseM, hvalPQ]

/-- The anchored extractTime regex accepts `H:MM` and `HH:MM` with
no seconds and no period, capturing hour and minute digit groups. -/
theorem timeMatchRegex_eval (h m : Nat) (_hh : h < 100) (hm : m < 100) :
    timeMatchRegex (natChars h ++ ':' :: pad2 m) =
      some (natChars h, pad2 m, none) := by
  obtain ⟨P, Q, hPQ⟩ : ∃ P Q, pad2 m = [P, Q] := ⟨_, _, pad2_eq m hm⟩
  have hPdig : isDigitC P = true :=
    pad2_digits m hm P (by rw [hPQ]; exact List.mem_cons_self _ _)
  have hQdig : isDigitC Q = true :=
    pad2_digits m hm Q
      (by rw [hPQ]; exact List.mem_cons_of_mem _ (List.mem_cons_self _ _))
  have hcol : isDigitC ':' = false := by decide
  rw [hPQ]
  unfold natChars
  by_cases h10 : h < 10
  · rw [if_pos h10]
    have hd := digitChar_isDigit h
    simp [timeMatchRegex, extractTimeMinutes, extractTimeSeconds,
      extractTimeTail, hd, hcol, hPdig, hQdig]
  · rw [if_neg h10]
    have hd1 := digitChar_isDigit (h / 10)
    have hd2 := digitChar_isDigit (h % 10)
    simp [timeMatchRegex, extractTimeMinutes, extractTimeSeconds,
      extractTimeTail, hd1, hd2, hPdig, hQdig]

/-- The route helper on a rendered 24-hour time: the hour is reduced
modulo twelve (zero becoming twelve) and the matching period suffix is
appended. -/
theorem extractTime_12h (h m : Nat) (hh : h < 24) (hm : m < 60) :
    extractTimeChars (clock12 h m []) =
      natChars (if h % 12 = 0 then 12 else h % 12) ++ ':' :: pad2 m ++
        ' ' :: (if h ≥ 12 then 'P' else 'A') :: ['M'] := by
  obtain ⟨D, ds, hnat, hD, hds, hval⟩ := natChars_spec h (by omega)
  obtain ⟨D2, ds2, hnat2, hD2, _, _⟩ :=
    natChars_spec (if h % 12 = 0 then 12 else h % 12) (by split <;> omega)
  have hcl : clock12 h m [] = natChars h ++ ':' :: pad2 m := by
    unfold clock12
    rw [List.append_nil]
  have htm := timeMatchRegex_eval h m (by omega) (by omega)
  have hne : (natChars h ++ ':' :: pad2 m).isEmpty = false := by
    rw [hnat]
    rfl
  have hper : (if h ≥ 12 then (['P', 'M'] : JStr) else ['A', 'M']) =
      (if h ≥ 12 then 'P' else 'A') :: ['M'] := by
    split <;> rfl
  have hdv : digitsVal (natChars h) = h := by
    rw [hnat]
    exact hval
  rw [hcl]
  simp only [extractTimeChars, hne, htm, Bool.false_eq_true, if_false, hdv,
    hper]
  have hsh : natChars (if h % 12 = 0 then 12 else h % 12) ++ ':' :: pad2 m ++
      ' ' :: (if h ≥ 12 then 'P' else 'A') :: ['M'] =
      D2 :: ((ds2 ++ ':' :: pad2 m ++ [' ', (if h ≥ 12 then 'P' else 'A')]) ++
        ['M']) := by
    rw [hnat2]
    simp
  rw [hsh, trimChars_noop _ _ _ (isDigit_not_space _ hD2) (by decide), ← hsh]

/-- The slot parser on a rendered time with no period suffix. -/
theorem parseClock_clock12_plain (h m : Nat) (hh : h < 100) (hm : m < 100) :
    parseClockChars (clock12 h m []) = validateTime (h : Int) (m : Int) := by
  obtain ⟨D, ds, hnat, hD, hds, hval⟩ := natChars_spec h hh
  have hcl : clock12 h m [] = (D :: ds) ++ ':' :: pad2 m := by
    unfold clock12
    rw [hnat, List.append_nil]
  rw [hcl, parseClock_digit_run D ds m hD hds hm, hval]

/-- The slot parser on a rendered time with a period suffix. -/
theorem parseClock_clock12_period (h m : Nat) (a : Char)
    (hh : h < 100) (hm : m < 100) (ha : isApC a = true) :
    parseClockChars (clock12 h m (' ' :: a :: ['M'])) =
      validateTime
        (if Char.toUpper a = 'P' then
          (if (h : Int) < 12 then (h : Int) + 12 else (h : Int))
         else (if (h : Int) = 12 then 0 else (h : Int)))
        (m : Int) := by
  obtain ⟨D, ds, hnat, hD, hds, hval⟩ := natChars_spec h hh
  have hcl : clock12 h m (' ' :: a :: ['M']) =
      (D :: ds) ++ ':' :: pad2 m ++ ' ' :: a :: ['M'] := by
    unfold clock12
    rw [hnat]
  rw [hcl, parseClock_digit_run_period D ds m a hD hds hm ha, hval]

/-- C4: the per-minute cron's time-slot parser accepts `12:MM AM` as
midnight and `12:MM PM` as noon, adds twelve to a PM hour below twelve,
accepts suffix-free 24-hour times verbatim, only ever returns hours at
most 23 and minutes at most 59, and rejects out-of-range hours and
minutes with or without a period suffix. -/
theorem claim_C4_time_parsing :
    (∀ m < 60, parseClockChars (clock12 12 m " AM".data) = some (0, m) ∧
      parseClockChars (clock12 12 m " PM".data) = some (12, m)) ∧
    (∀ h < 12, ∀ m < 60,
      parseClockChars (clock12 h m " PM".data) = some (h + 12, m)) ∧
    (∀ h < 24, ∀ m < 60, parseClockChars (clock12 h m []) = some (h, m)) ∧
    (∀ s hm, parseClockChars s = some hm → hm.1 ≤ 23 ∧ hm.2 ≤ 59) ∧
    (∀ h < 100, 23 < h →
      parseClockChars (clock12 h 0 []) = none ∧
      parseClockChars (clock12 h 0 " AM".data) = none ∧
      parseClockChars (clock12 h 0 " PM".data) = none) ∧
    (∀ m < 100, 59 < m →
      parseClockChars (clock12 9 m []) = none ∧
      parseClockChars (clock12 9 m " AM".data) = none ∧
      parseClockChars (clock12 9 m " PM".data) = none) := by
  have hAM : (" AM".data : JStr) = ' ' :: 'A' :: ['M'] := rfl
  have hPM : (" PM".data : JStr) = ' ' :: 'P' :: ['M'] := rfl
  refine ⟨?_, ?_, ?_, ?_, ?_, ?_⟩
  · intro m hm
    constructor
    · rw [hAM, parseClock_clock12_period 12 m 'A' (by omega) (by omega)
        (by decide)]
      refine validateTime_eval _ _ 0 m ?_ rfl (by omega) (by omega)
      rw [if_neg (by decide), if_pos (by norm_num)]
      norm_num
    · rw [hPM, parseClock_clock12_period 12 m 'P' (by omega) (by omega)
        (by decide)]
      refine validateTime_eval _ _ 12 m ?_ rfl (by omega) (by omega)
      rw [if_pos (by decide), if_neg (by norm_num)]
  · intro h hh m hm
    rw [hPM, parseClock_clock12_period h m 'P' (by omega) (by omega)
      (by decide)]
    refine validateTime_eval _ _ (h + 12) m ?_ rfl (by omega) (by omega)
    rw [if_pos (by decide), if_pos (by exact_mod_cast hh)]
    push_cast
    ring
  · intro h hh m hm
    rw [parseClock_clock12_plain h m (by omega) (by omega)]
    exact validateTime_eval _ _ h m rfl rfl (by omega) (by omega)
  · exact fun s hm h => parseClock_range s hm h
  · intro h hh hgt
    refine ⟨?_, ?_, ?_⟩
    · rw [parseClock_clock12_plain h 0 (by omega) (by omega)]
      exact validateTime_none _ _ (Or.inl (by exact_mod_cast hgt))
    · rw [hAM, parseClock_clock12_period h 0 'A' (by omega) (by omega)
        (by decide)]
      refine validateTime_none _ _ (Or.inl ?_)
      rw [if_neg (by decide), if_neg (by exact_mod_cast (by omega : ¬ h = 12))]
      exact_mod_cast hgt
    · rw [hPM, parseClock_clock12_period h 0 'P' (by omega) (by omega)
        (by decide)]
      refine validateTime_none _ _ (Or.inl ?_)
      rw [if_pos (by decide), if_neg (by exact_mod_cast (by omega : ¬ h < 12))]
      exact_mod_cast hgt
  · intro m hm hgt
    refine ⟨?_, ?_, ?_⟩
    · rw [parseClock_clock12_plain 9 m (by omega) (by omega)]
      exact validateTime_none _ _ (Or.inr (Or.inl (by exact_mod_cast hgt)))
    · rw [hAM, parseClock_clock12_period 9 m 'A' (by omega) (by omega)
        (by decide)]
      exact validateTime_none _ _ (Or.inr (Or.inl (by exact_mod_cast hgt)))
    · rw [hPM, parseClock_clock12_period 9 m 'P' (by omega) (by omega)
        (by decide)]
      exact validateTime_none _ _ (Or.inr (Or.inl (by exact_mod_cast hgt)))

/-- Concrete instances of C4: half past midnight, quarter past seven in
the evening, five past nine without a suffix, an out-of-range hour, and
the range bound on an accepted result. -/
theorem claim_C4_witness :
    parseClockChars (clock12 12 30 " AM".data) = some (0, 30) ∧
    parseClockChars (clock12 7 15 " PM".data) = some (19, 15) ∧
    parseClockChars (clock12 9 5 []) = some (9, 5) ∧
    parseClockChars (clock12 25 0 []) = none ∧
    (9 : Nat) ≤ 23 ∧ (5 : Nat) ≤ 59 :=
  ⟨(claim_C4_time_parsing.1 30 (by decide)).1,
   claim_C4_time_parsing.2.1 7 (by decide) 15 (by decide),
   claim_C4_time_parsing.2.2.1 9 (by decide) 5 (by decide),
   (claim_C4_time_parsing.2.2.2.2.1 25 (by decide) (by decide)).1,
   claim_C4_time_parsing.2.2.2.1 (clock12 9 5 []) (9, 5)
     (claim_C4_time_parsing.2.2.1 9 (by decide) 5 (by decide))⟩

/-- C7: the tasks/list endpoint's 12-hour re-rendering of a scheduled
24-hour time is parsed back by the cron's slot parser to the original
hour and minute, and the cron target time string `HH:MM` also parses to
its own hour and minute, so the two representations agree. -/
theorem claim_C7_round_trip :
    (∀ h < 24, ∀ m < 60,
      parseClockChars (extractTimeChars (clock12 h m [])) = some (h, m)) ∧
    (∀ h < 24, ∀ m < 60,
      parseClockChars (pad2 h ++ ':' :: pad2 m) = some (h, m)) := by
  constructor
  · intro h hh m hm
    rw [extractTime_12h h m hh hm]
    have hx : natChars (if h % 12 = 0 then 12 else h % 12) ++ ':' :: pad2 m ++
        ' ' :: (if h ≥ 12 then 'P' else 'A') :: ['M'] =
        clock12 (if h % 12 = 0 then 12 else h % 12) m
          (' ' :: (if h ≥ 12 then 'P' else 'A') :: ['M']) := rfl
    rw [hx, parseClock_clock12_period _ m _ (by split <;> omega) (by omega)
      (by split <;> decide)]
    by_cases hp : h ≥ 12
    · rw [if_pos hp, if_pos (by decide)]
      by_cases hz : h % 12 = 0
      · rw [if_pos hz, if_neg (by norm_num)]
        have h12 : h = 12 := by omega
        subst h12
        exact validateTime_eval _ _ 12 m rfl rfl (by omega) (by omega)
      · rw [if_neg hz, if_pos (by omega)]
        exact validateTime_eval _ _ h m (by omega) rfl (by omega) (by omega)
    · rw [if_neg hp, if_neg (by decide)]
      by_cases hz : h % 12 = 0
      · rw [if_pos hz, if_pos (by norm_num)]
        have h0 : h = 0 := by omega
        subst h0
        exact validateTime_eval _ _ 0 m rfl rfl (by omega) (by omega)
      · rw [if_neg hz, if_neg (by omega)]
        exact validateTime_eval _ _ h m (by omega) rfl (by omega) (by omega)
  · intro h hh m hm
    obtain ⟨D, ds, hpd, hD, hds, hval⟩ := pad2_spec h (by omega)
    rw [hpd, parseClock_digit_run D ds m hD hds (by omega), hval]
    exact validateTime_eval _ _ h m rfl rfl (by omega) (by omega)

/-- Concrete instances of C7: five past midnight survives the 12-hour
round trip, and half past one in the afternoon parses directly. -/
theorem claim_C7_witness :
    parseClockChars (extractTimeChars (clock12 0 5 [])) = some (0, 5) ∧
    parseClockChars (pad2 13 ++ ':' :: pad2 30) = some (13, 30) :=
  ⟨claim_C7_round_trip.1 0 (by decide) 5 (by decide),
   claim_C7_round_trip.2 13 (by decide) 30 (by decide)⟩

end Plqwr
